import Mathlib

/-!
Verification of the Echo step-execution core (action parser, determinism
classifier, history-context builder, verification verdict parser, and the
ambiguous-step agent loop) against its natural-language specification.

The Python sources are shallowly embedded: text is `List Char` (Python `str`),
Python dicts are association lists preserving insertion/update semantics,
machine integers are `Int`, and every external effect of the agent loop
(screenshots, model calls, operator execution) is an explicit environment
value consumed by a total function.  Modelling notes:

* character classes (`\w`, `\s`, digits) and case folding are modelled over
  ASCII; the Python originals additionally accept non-ASCII Unicode
  categories that never occur in the fixed vocabulary exercised here;
* `float`/`round` on coordinate tokens is modelled as exact decimal
  half-to-even rounding; binary floating-point artifacts are not modelled;
* Python exceptions raised by the browser driver itself are outside the
  embedding: environment calls are total oracle values.
-/

namespace Echo

/-- Python text: a string as a list of characters. -/
abbrev Str := List Char

/-- Character list of a Lean string literal. -/
def lit (s : String) : Str := s.data

/-- Python `str.isspace` members relevant to `str.strip()` / regex `\s` (ASCII). -/
def isWSpy (c : Char) : Bool :=
  c = ' ' ∨ c = '\t' ∨ c = '\n' ∨ c = '\r' ∨ c = '\x0b' ∨ c = '\x0c'

/-- Regex `\d` (ASCII decimal digit). -/
def isDigitPy (c : Char) : Bool := c.isDigit

/-- Regex `\w` (ASCII letters, digits, underscore). -/
def isWordChar (c : Char) : Bool := c.isAlphanum ∨ c = '_'

/-- ASCII lower-casing, as used by `str.lower()` and `re.IGNORECASE`. -/
def lowerC (c : Char) : Char := c.toLower

/-- Lower-case a whole string (`str.lower()`). -/
def pyLower (s : Str) : Str := s.map lowerC

/-- Python `str.strip()`: remove whitespace from both ends. -/
def pystrip (s : Str) : Str :=
  ((s.dropWhile isWSpy).reverse.dropWhile isWSpy).reverse

/-- Python `str.strip('"\'')`: remove double and single quotes from both ends. -/
def isQuoteChar (c : Char) : Bool := c = '"' ∨ c = '\''

def stripQuotes (s : Str) : Str :=
  ((s.dropWhile isQuoteChar).reverse.dropWhile isQuoteChar).reverse

/-- Python `x or y` on strings: `y` when `x` is empty. -/
def pyOrStr (x y : Str) : Str := if x.isEmpty then y else x

/-- Line-break characters recognised by Python `str.splitlines` (BMP set). -/
def isLineBreak (c : Char) : Bool :=
  c = '\n' ∨ c = '\r' ∨ c = '\x0b' ∨ c = '\x0c' ∨ c = '\x1c' ∨ c = '\x1d' ∨
  c = '\x1e' ∨ c = '\x85' ∨ c = '\u2028' ∨ c = '\u2029'

/-- Worker for `splitlines`; `acc` holds the current line reversed. -/
def splitlinesGo : Str → Str → List Str
  | acc, [] => if acc.isEmpty then [] else [acc.reverse]
  | acc, '\r' :: '\n' :: rest => acc.reverse :: splitlinesGo [] rest
  | acc, c :: rest =>
    if isLineBreak c then acc.reverse :: splitlinesGo [] rest
    else splitlinesGo (c :: acc) rest

/-- Python `str.splitlines()` (no terminal empty line for a trailing break). -/
def splitlines (s : Str) : List Str := splitlinesGo [] s

/-- Python `s.split(",")` worker. -/
def splitCommaGo : Str → Str → List Str
  | acc, [] => [acc.reverse]
  | acc, ',' :: rest => acc.reverse :: splitCommaGo [] rest
  | acc, c :: rest => splitCommaGo (c :: acc) rest

/-- Python `s.split(",")`. -/
def splitComma (s : Str) : List Str := splitCommaGo [] s

/-- Case-insensitive anchored literal match: consume `pat` (given lower-case)
from the head of `s`, returning the rest on success. -/
def ciDrop : Str → Str → Option Str
  | [], s => some s
  | _, [] => none
  | p :: ps, c :: cs => if lowerC c = p then ciDrop ps cs else none

/-- Case-insensitive test that `pat` (lower-case) is a prefix of `s`. -/
def ciStarts (pat s : Str) : Bool := (ciDrop pat s).isSome

/-- Python `int(s)` for base-10 string literals (sign + digits). -/
def digitsToNat (ds : Str) : Nat :=
  ds.foldl (fun acc c => 10 * acc + (c.toNat - '0'.toNat)) 0

def pyInt (s : Str) : Option Int :=
  let t := pystrip s
  match t with
  | '+' :: r => if r ≠ [] ∧ r.all isDigitPy then some (digitsToNat r) else none
  | '-' :: r => if r ≠ [] ∧ r.all isDigitPy then some (-(digitsToNat r : Int)) else none
  | r => if r ≠ [] ∧ r.all isDigitPy then some (digitsToNat r) else none

/-! ### Python values and dictionaries

Dicts are association lists; assigning an existing key updates it in place,
a new key is appended — matching CPython insertion-order semantics. -/

/-- A Python value as it occurs in steps, parsed actions and history entries. -/
inductive Val where
  | s (v : Str)
  | i (v : Int)
  | b (v : Bool)
  | bytes (v : List Nat)
  | list (v : List Val)
  | none'

/-- Python truthiness of a `Val`. -/
def truthy : Val → Bool
  | .s v => !v.isEmpty
  | .i n => n ≠ 0
  | .b v => v
  | .bytes v => !v.isEmpty
  | .list v => !v.isEmpty
  | .none' => false

abbrev Dict := List (String × Val)

/-- Python `d.get(k)` (first binding wins, as in a real dict there is one). -/
def dget (d : Dict) (k : String) : Option Val :=
  (d.find? (fun p => p.1 = k)).map (·.2)

/-- Python `k in d`. -/
def hasKey (d : Dict) (k : String) : Bool := (dget d k).isSome

/-- Truthiness of `d.get(k)` (missing key is `None`, hence falsy). -/
def truthyGet (d : Dict) (k : String) : Bool :=
  match dget d k with
  | some v => truthy v
  | none => false

/-- Python `d[k] = v`: update in place, or append when the key is new. -/
def dset (d : Dict) (k : String) (v : Val) : Dict :=
  match d with
  | [] => [(k, v)]
  | (k', v') :: t => if k' = k then (k, v) :: t else (k', v') :: dset t k v

/-! ### Number tokens — regex `-?\d+(?:\.\d+)?` and `int(round(float(p)))` -/

/-- One numeric token: optional minus sign, integer digits, fraction digits. -/
structure NumTok where
  neg : Bool
  intDigits : Str
  fracDigits : Str
deriving DecidableEq, Repr

/-- Optional fraction part `(?:\.\d+)?` at the current position. -/
def scanFrac (s : Str) : Str × Str :=
  match s with
  | '.' :: c :: rest =>
    if isDigitPy c then ((c :: rest).takeWhile isDigitPy, (c :: rest).dropWhile isDigitPy)
    else ([], '.' :: c :: rest)
  | r => ([], r)

/-- Anchored match of `-?\d+(?:\.\d+)?`; returns the token and the rest. -/
def scanNumber (s : Str) : Option (NumTok × Str) :=
  match s with
  | '-' :: c :: rest =>
    if isDigitPy c then
      let body := c :: rest
      let p := scanFrac (body.dropWhile isDigitPy)
      some (⟨true, body.takeWhile isDigitPy, p.1⟩, p.2)
    else none
  | c :: rest =>
    if isDigitPy c then
      let body := c :: rest
      let p := scanFrac (body.dropWhile isDigitPy)
      some (⟨false, body.takeWhile isDigitPy, p.1⟩, p.2)
    else none
  | [] => none

theorem dropWhile_len_le (p : Char → Bool) (l : Str) :
    (l.dropWhile p).length ≤ l.length := by
  induction l with
  | nil => simp [List.dropWhile]
  | cons c t ih =>
    simp only [List.dropWhile]
    cases p c <;> simp <;> omega

theorem scanFrac_len_le (s : Str) : (scanFrac s).2.length ≤ s.length := by
  unfold scanFrac
  split
  · rename_i c rest
    split
    · simpa using Nat.le_trans (dropWhile_len_le isDigitPy (c :: rest)) (by simp)
    · simp
  · simp

theorem scanNumber_len_lt (s : Str) (t : NumTok) (r : Str)
    (h : scanNumber s = some (t, r)) : r.length < s.length := by
  unfold scanNumber at h
  split at h
  · rename_i c rest
    split at h
    · simp only [Option.some.injEq, Prod.mk.injEq] at h
      have h2 := scanFrac_len_le ((c :: rest).dropWhile isDigitPy)
      have h3 := dropWhile_len_le isDigitPy (c :: rest)
      have hr : r = (scanFrac ((c :: rest).dropWhile isDigitPy)).2 := h.2.symm
      subst hr
      simp only [List.length_cons] at *
      omega
    · exact absurd h (by simp)
  · rename_i c rest _
    split at h
    · rename_i hdig
      simp only [Option.some.injEq, Prod.mk.injEq] at h
      have hdw : (c :: rest).dropWhile isDigitPy = rest.dropWhile isDigitPy := by
        simp [List.dropWhile, hdig]
      have h2 := scanFrac_len_le ((c :: rest).dropWhile isDigitPy)
      have h3 := dropWhile_len_le isDigitPy rest
      rw [hdw] at h2
      have hr : r = (scanFrac (rest.dropWhile isDigitPy)).2 := by
        rw [← h.2, hdw]
      subst hr
      simp only [List.length_cons]
      omega
    · exact absurd h (by simp)
  · exact absurd h (by simp)

/-- Worker for `findNumbers`; the fuel only needs to cover the string length
because every scan step consumes at least one character (structural recursion
keeps the function kernel-reducible). -/
def findNumbersGo : Nat → Str → List NumTok
  | 0, _ => []
  | _, [] => []
  | fuel + 1, c :: rest =>
    match scanNumber (c :: rest) with
    | some (t, r) => t :: findNumbersGo fuel r
    | none => findNumbersGo fuel rest

/-- Regex `re.findall(r"-?\d+(?:\.\d+)?", s)`: leftmost non-overlapping
number tokens. -/
def findNumbers (s : Str) : List NumTok := findNumbersGo s.length s

/-- The fuel bound is irrelevant as long as it covers the string length. -/
theorem findNumbersGo_fuel (fuel fuel' : Nat) (s : Str)
    (h : s.length ≤ fuel) (h' : s.length ≤ fuel') :
    findNumbersGo fuel s = findNumbersGo fuel' s := by
  induction fuel using Nat.strong_induction_on generalizing s fuel' with
  | _ fuel ih =>
    match fuel, s, fuel' with
    | 0, s, fuel' =>
      have hs : s = [] := List.length_eq_zero.mp (Nat.le_zero.mp h)
      subst hs
      cases fuel' <;> rfl
    | fuel + 1, [], fuel' => cases fuel' <;> rfl
    | fuel + 1, c :: rest, 0 => exact absurd h' (by simp)
    | fuel + 1, c :: rest, fuel'' + 1 =>
      simp only [findNumbersGo]
      cases hsc : scanNumber (c :: rest) with
      | none =>
        exact ih fuel (Nat.lt_succ_self fuel) fuel'' rest
          (by simpa using Nat.le_of_succ_le_succ h)
          (by simpa using Nat.le_of_succ_le_succ h')
      | some p =>
        obtain ⟨t, r⟩ := p
        have hlt := scanNumber_len_lt (c :: rest) t r hsc
        simp only [List.length_cons] at h h' hlt
        simp only [ih fuel (Nat.lt_succ_self fuel) fuel'' r (by omega) (by omega)]

/-- Compare the fraction `0.<ds>` with one half. -/
def fracCmpHalf (ds : Str) : Ordering :=
  match ds with
  | [] => .lt
  | d :: rest =>
    if d.toNat < '5'.toNat then .lt
    else if '5'.toNat < d.toNat then .gt
    else if rest.all (· = '0') then .eq else .gt

/-- Python `int(round(float(tok)))`: decimal half-to-even rounding. -/
def roundTok (t : NumTok) : Int :=
  let n := digitsToNat t.intDigits
  let m :=
    match fracCmpHalf t.fracDigits with
    | .lt => n
    | .gt => n + 1
    | .eq => if n % 2 = 0 then n else n + 1
  if t.neg then -(m : Int) else (m : Int)

/-- Source `_parse_coords`: first `count` numeric tokens, rounded to `Int`. -/
def parse_coords (s : Str) (count : Nat) : Option (List Int) :=
  let toks := findNumbers s
  if count ≤ toks.length then some ((toks.take count).map roundTok) else none

/-! ### The two action-line regexes

`re.search(r"(?:Action):\s*(\w+)\s*\((.*?)\)\s*\.?$", line, I|S)` and its
unanchored fallback `re.search(r"(?:Action):\s*(\w+)\s*\((.*?)\)", line, I)`.
On a single line (no line breaks) backtracking is deterministic: the name is
the maximal word run, and the lazy group ends at the first `)` whose suffix
satisfies the anchor (none for the fallback). `re.search` tries start
positions left to right, so a later `Action:` occurrence on the same line can
still match when an earlier one cannot. -/

/-- Anchor `\s*\.?$` after the closing parenthesis (strict regex only). -/
def suffixOk (rest : Str) : Bool :=
  let r := rest.dropWhile isWSpy
  r = [] ∨ r = ['.']

/-- Lazy `(.*?)\)`: content up to the first admissible closing parenthesis. -/
def findClose (strict : Bool) : Str → Str → Option Str
  | _, [] => none
  | acc, ')' :: rest =>
    if !strict ∨ suffixOk rest then some acc.reverse
    else findClose strict (')' :: acc) rest
  | acc, c :: rest => findClose strict (c :: acc) rest

/-- Try the full action regex anchored at the current position. -/
def matchActionHere (strict : Bool) (s : Str) : Option (Str × Str) :=
  match ciDrop (lit "action:") s with
  | none => none
  | some r1 =>
    let r2 := r1.dropWhile isWSpy
    let name := r2.takeWhile isWordChar
    if name.isEmpty then none
    else
      match (r2.dropWhile isWordChar).dropWhile isWSpy with
      | '(' :: r4 => (findClose strict [] r4).map (fun args => (name, args))
      | _ => none

/-- `re.search`: leftmost start position at which the pattern matches. -/
def searchAction (strict : Bool) : Str → Option (Str × Str)
  | [] => none
  | c :: rest => matchActionHere strict (c :: rest) <|> searchAction strict rest

/-! ### `_extract_quoted` -/

/-- Index of the last occurrence of `q` in `s`. -/
def rfindIdx (q : Char) : Str → Option Nat
  | [] => none
  | c :: rest =>
    match rfindIdx q rest with
    | some i => some (i + 1)
    | none => if c = q then some 0 else none

/-- Replace every escaped quote `\q` by `q`, scanning left to right
(`re.sub(r"\\" + quote, quote, inner)`). -/
def unescapeQuote (q : Char) : Str → Str
  | [] => []
  | ['\\'] => ['\\']
  | '\\' :: c :: rest =>
    if c = q then q :: unescapeQuote q rest else '\\' :: unescapeQuote q (c :: rest)
  | c :: rest => c :: unescapeQuote q rest

/-- Source `_extract_quoted`: content between the first character (a quote)
and the last occurrence of the same quote, with escapes unescaped. -/
def extract_quoted (s : Str) : Str :=
  if s.length < 2 then s
  else
    match s with
    | [] => []
    | q :: rest =>
      if isQuoteChar q then
        match rfindIdx q (q :: rest) with
        | some e => if 0 < e then unescapeQuote q (rest.take (e - 1)) else rest
        | none => rest
      else q :: rest

/-! ### Named-argument regexes for `Scroll(...)` -/

/-- Anchored `\s*=\s*` then a capture, at the position right after the key. -/
def afterEq (s : Str) : Option Str :=
  match s.dropWhile isWSpy with
  | '=' :: r => some (r.dropWhile isWSpy)
  | _ => none

/-- Anchored `-?\d+` (maximal digits), returning its integer value. -/
def signedIntHere (s : Str) : Option Int :=
  match s with
  | '-' :: r =>
    let ds := r.takeWhile isDigitPy
    if ds.isEmpty then none else some (-(digitsToNat ds : Int))
  | r =>
    let ds := r.takeWhile isDigitPy
    if ds.isEmpty then none else some (digitsToNat ds)

/-- Anchored `["\']?(\w+)`, returning the word captured. -/
def wordHere (s : Str) : Option Str :=
  let r := match s with
    | c :: rest => if isQuoteChar c then rest else c :: rest
    | [] => []
  let w := r.takeWhile isWordChar
  if w.isEmpty then none else some w

/-- Search `\b<key>\s*=\s*` (case-insensitive, `key` lower-case) and apply
`cap` to the text after the equals sign; `prev` is the previous character,
used for the word boundary before the key. -/
def findNamedGo {α : Type} (key : Str) (cap : Str → Option α) :
    Option Char → Str → Option α
  | _, [] => none
  | prev, c :: rest =>
    (if (match prev with | some p => !isWordChar p | none => true) then
      match ciDrop key (c :: rest) with
      | some r1 => (afterEq r1).bind cap
      | none => none
    else none) <|> findNamedGo key cap (some c) rest

def findNamed {α : Type} (key : Str) (cap : Str → Option α) (s : Str) : Option α :=
  findNamedGo key cap none s

/-! ### `parse_action` -/

/-- Does a raw argument string start with a quote character
(`args_str.startswith('"') or args_str.startswith("'")`)? -/
def startsQuote (s : Str) : Bool :=
  match s with
  | c :: _ => isQuoteChar c
  | [] => false

/-- The `_extract_quoted(...) if quoted else args_str.strip()` idiom. -/
def quotedOrStrip (args : Str) : Str :=
  if startsQuote args then extract_quoted args else pystrip args

/-- Python `float` then `int()` truncation, for simple decimal literals
(`Wait` argument); exponent/inf/nan forms are not modelled. -/
def pyFloatToInt (s : Str) : Option Int :=
  let core : Str → Option Int := fun t =>
    match t with
    | [] => none
    | _ =>
      let ds := t.takeWhile isDigitPy
      let r := t.dropWhile isDigitPy
      match r with
      | [] => if ds.isEmpty then none else some (digitsToNat ds)
      | '.' :: fr =>
        if fr.all isDigitPy ∧ ¬(ds.isEmpty ∧ fr.isEmpty) then some (digitsToNat ds)
        else none
      | _ => none
  match s with
  | '+' :: t => core t
  | '-' :: t => (core t).map Int.neg
  | t => core t

/-- Comma-split arguments, each `p.strip().strip('"\'')`. -/
def argParts (args : Str) : List Str :=
  (splitComma args).map (fun p => stripQuotes (pystrip p))

/-- The per-action-name dispatch of `parse_action`, applied to the lower-case
name and the stripped argument string.  Returns `none` exactly for
`navigate` with an empty URL. -/
def parseBranches (name args : Str) : Option Dict :=
  let base : Dict := [("action", .s name)]
  if name = lit "click" ∨ name = lit "rightclick" ∨ name = lit "doubleclick" then
    match parse_coords args 2 with
    | some (x :: y :: _) => some (dset (dset base "x" (.i x)) "y" (.i y))
    | _ => some base
  else if name = lit "drag" then
    match parse_coords args 4 with
    | some (x1 :: y1 :: x2 :: y2 :: _) =>
      some (dset (dset (dset (dset base "x1" (.i x1)) "y1" (.i y1)) "x2" (.i x2)) "y2" (.i y2))
    | _ => some base
  else if name = lit "scroll" then
    let namedX := findNamed (lit "x") signedIntHere args
    let namedY := findNamed (lit "y") signedIntHere args
    let namedDir := findNamed (lit "direction") wordHere args
    let namedDist := findNamed (lit "distance") signedIntHere args
    match namedX, namedY with
    | some vx, some vy =>
      let d1 := dset (dset base "x" (.i vx)) "y" (.i vy)
      let d2 := dset d1 "direction"
        (.s (match namedDir with | some w => pyLower w | none => lit "down"))
      some (match namedDist with | some vd => dset d2 "distance" (.i vd) | none => d2)
    | _, _ =>
      let parts := argParts args
      if 3 ≤ parts.length then
        match pyInt (parts.getD 0 []) with
        | none => some base
        | some vx =>
          let d1 := dset base "x" (.i vx)
          match pyInt (parts.getD 1 []) with
          | none => some d1
          | some vy =>
            let d2 := dset (dset d1 "y" (.i vy)) "direction" (.s (pyLower (parts.getD 2 [])))
            if 4 ≤ parts.length then
              match pyInt (parts.getD 3 []) with
              | none => some d2
              | some vd => some (dset d2 "distance" (.i vd))
            else some d2
      else some base
  else if name = lit "type" then
    let content := if startsQuote args then extract_quoted args else args
    some (dset base "content" (.s (pyOrStr content args)))
  else if name = lit "hotkey" then
    let keys := ((splitComma args).filter (fun p => ¬(pystrip p).isEmpty)).map
      (fun p => pyLower (stripQuotes (pystrip p)))
    some (dset base "keys" (.list (keys.map .s)))
  else if name = lit "wait" then
    let d0 := dset base "seconds" (.i 1)
    match pyFloatToInt (pystrip args) with
    | some n => some (dset d0 "seconds" (.i (max 1 (min n 30))))
    | none => some d0
  else if name = lit "presskey" then
    some (dset base "key" (.s (pyOrStr (quotedOrStrip args) (lit "enter"))))
  else if name = lit "navigate" then
    let url := quotedOrStrip args
    if url.isEmpty then none
    else some (dset base "url" (.s url))
  else if name = lit "selectoption" then
    let parts := argParts args
    if 3 ≤ parts.length then
      match pyInt (parts.getD 0 []) with
      | none => some base
      | some vx =>
        let d1 := dset base "x" (.i vx)
        match pyInt (parts.getD 1 []) with
        | none => some d1
        | some vy => some (dset (dset d1 "y" (.i vy)) "value" (.s (parts.getD 2 [])))
    else if 2 ≤ parts.length then
      some (dset (dset base "selector" (.s (parts.getD 0 []))) "value" (.s (parts.getD 1 [])))
    else some base
  else if name = lit "hover" then
    match parse_coords args 2 with
    | some (x :: y :: _) => some (dset (dset base "x" (.i x)) "y" (.i y))
    | _ => some base
  else if name = lit "waitforelement" then
    some (dset (dset base "description" (.s (quotedOrStrip args))) "selector" (.s (lit "body")))
  else if name = lit "openapp" ∨ name = lit "focusapp" then
    some (dset base "appName" (.s (quotedOrStrip args)))
  else if name = lit "finished" ∨ name = lit "calluser" then
    let reason := quotedOrStrip args
    if reason.isEmpty then some base else some (dset base "reason" (.s reason))
  else
    some base

/-- Does a stripped line begin the search, i.e. match
`re.match(r"^(Action|action):", stripped)`? -/
def startsActionTag (st : Str) : Bool :=
  (lit "Action:").isPrefixOf st ∨ (lit "action:").isPrefixOf st

/-- Parse one already-selected action line (regex match plus dispatch). -/
def parseActionLine (action_line : Str) : Option Dict :=
  match searchAction true action_line <|> searchAction false action_line with
  | none => none
  | some (nm, args0) =>
    let name := pyLower (pystrip nm)
    let args := pystrip args0
    match parseBranches name args with
    | none => none
    | some result => if truthyGet result "action" then some result else none

/-- Source `parse_action`: pick the first line whose stripped form starts with
`Action:`/`action:`, then parse that line only. -/
def parse_action (text : Str) : Option Dict :=
  if text.isEmpty then none
  else
    match (splitlines text).find? (fun l => startsActionTag (pystrip l)) with
    | none => none
    | some line => parseActionLine (pystrip line)

/-! ### Workflow steps and the determinism classifier (`direct_executor.py`) -/

/-- A workflow step record: `action`, free-form `params`, and the two free-text
fields consumed by the agent loop.  A missing `action` key is `none`. -/
structure Step where
  action : Option Str := none
  params : Dict := []
  context : Str := []
  expected_outcome : Str := []

/-- Source `(step.get("action") or "").lower().replace("_", "")`. -/
def normAction (a : Option Str) : Str :=
  ((match a with | some s => s | none => ([] : Str)).map lowerC).filter (fun c => c ≠ '_')

/-- Source `is_deterministic`: early-return cascade, embedded branch by branch. -/
def is_deterministic (step : Step) : Bool :=
  let params := step.params
  let action := normAction step.action
  if action = lit "apicall" ∨ step.action = some (lit "api_call") then true
  else if action = lit "navigate" ∧ truthyGet params "url" then true
  else if truthyGet params "selector" then true
  else if hasKey params "x" ∧ hasKey params "y" then true
  else if action = lit "wait" then true
  else if action = lit "presskey" ∧ truthyGet params "key" then true
  else if action = lit "scroll" ∧ truthyGet params "direction" then true
  else if action = lit "selectoption" ∧ truthyGet params "selector" ∧ truthyGet params "value" then true
  else if action = lit "hover" ∧ (truthyGet params "selector" ∨ (hasKey params "x" ∧ hasKey params "y")) then true
  else if action = lit "waitforelement" ∧ truthyGet params "selector" then true
  else false

/-- Spec-side determinism predicate, written as the claim enumerates it: a
step is deterministic exactly when at least one listed condition holds
(membership of a param means a truthy value, except the bare `x`/`y` check
which is key presence, as the spec's "params contain both x and y"). -/
def specDeterministic (step : Step) : Prop :=
  (normAction step.action = lit "apicall" ∨ step.action = some (lit "api_call"))
  ∨ (normAction step.action = lit "navigate" ∧ truthyGet step.params "url" = true)
  ∨ truthyGet step.params "selector" = true
  ∨ (hasKey step.params "x" = true ∧ hasKey step.params "y" = true)
  ∨ normAction step.action = lit "wait"
  ∨ (normAction step.action = lit "presskey" ∧ truthyGet step.params "key" = true)
  ∨ (normAction step.action = lit "scroll" ∧ truthyGet step.params "direction" = true)
  ∨ (normAction step.action = lit "selectoption" ∧ truthyGet step.params "selector" = true ∧
      truthyGet step.params "value" = true)
  ∨ (normAction step.action = lit "hover" ∧ (truthyGet step.params "selector" = true ∨
      (hasKey step.params "x" = true ∧ hasKey step.params "y" = true)))
  ∨ (normAction step.action = lit "waitforelement" ∧ truthyGet step.params "selector" = true)

/-! ### History context (`image_utils.build_context`) -/

/-- Value of `entry.get(k)` when it is a `bytes` object, else `none`
(the `isinstance(..., bytes)` guard). -/
def entryShotAt (e : Dict) (k : String) : Option (List Nat) :=
  match dget e k with
  | some (.bytes b) => some b
  | _ => none

/-- One history entry's screenshot: `screenshot` first, else `observation`. -/
def entryShot (e : Dict) : Option (List Nat) :=
  entryShotAt e "screenshot" <|> entryShotAt e "observation"

/-- Python `entry.get(k1, entry.get(k2, ""))`. -/
def entryStrD (e : Dict) (k1 k2 : String) : Val :=
  match dget e k1 with
  | some v => v
  | none => match dget e k2 with | some v => v | none => .s []

/-- Python `l[-n:]` (note `l[-0:]` is the whole list). -/
def sliceLastN {α : Type} (l : List α) (n : Nat) : List α :=
  if n = 0 then l else l.drop (l.length - n)

/-- Python `l[:-n]` (note `l[:-0]` is the empty list). -/
def sliceDropLastN {α : Type} (l : List α) (n : Nat) : List α :=
  if n = 0 then [] else l.take (l.length - n)

/-- Decimal rendering of a `Nat`, as Python string formatting produces. -/
def natStr (n : Nat) : Str := (Nat.repr n).data

/-- Python `str(v)` for the value shapes that occur in history entries and
parsed actions (nested lists render their string elements quoted). -/
def pyStrOfVal : Val → Str
  | .s s => s
  | .i n => (Int.repr n).data
  | .b true => lit "True"
  | .b false => lit "False"
  | .bytes _ => lit "bytes"
  | .list vs => '[' :: (List.intercalate (lit ", ")
      (vs.map (fun v => match v with
        | .s s => '\'' :: (s ++ ['\''])
        | .i n => (Int.repr n).data
        | .b true => lit "True"
        | .b false => lit "False"
        | _ => lit "?"))) ++ [']']
  | .none' => lit "None"

/-- The slice `thought[:200]` for the string-valued thoughts the agent stores. -/
def valTake (v : Val) (n : Nat) : Str :=
  match v with
  | .s s => s.take n
  | v => (pyStrOfVal v).take n

/-- One summary line: `f"Step {i+1}: Thought: {thought[:200]}... Action: {str(action)[:80]}"`. -/
def summaryLine (i : Nat) (thought action : Val) : Str :=
  lit "Step " ++ natStr (i + 1) ++ lit ": Thought: " ++ valTake thought 200 ++
  lit "... Action: " ++ (pyStrOfVal action).take 80

/-- The text summary built from the older entries. -/
def olderSummary (older : List Dict) : Str :=
  let parts := older.enum.filterMap (fun p =>
    let thought := entryStrD p.2 "thought" "t"
    let action := entryStrD p.2 "action" "a"
    if truthy thought ∨ truthy action then some (summaryLine p.1 thought action) else none)
  List.intercalate (lit "\n") parts

/-- Source `build_context`: raises `ValueError` on empty history, else the
last `n_images` screenshots plus a text summary of the older entries. -/
def build_context (history : List Dict) (n_images : Nat) (summarize_older : Bool) :
    Except Str (List (List Nat) × Str) :=
  if history.isEmpty then .error (lit "build_context: history must not be empty")
  else
    let recent := if n_images ≤ history.length then sliceLastN history n_images else history
    let screenshots := recent.filterMap entryShot
    let summary :=
      if summarize_older ∧ n_images < history.length then
        olderSummary (sliceDropLastN history n_images)
      else ([] : Str)
    .ok (screenshots, summary)

/-! ### `extract_thought` (`action_parser.py`) -/

/-- Line scan: first `Thought:` / `Reflection:` / `Action_Summary:` tag
(case-insensitive) at the start of a stripped line. -/
def lineThought (st : Str) : Option Str :=
  if ciStarts (lit "thought:") st then some (pystrip (st.drop 8))
  else if ciStarts (lit "reflection:") st then some (pystrip (st.drop 11))
  else if ciStarts (lit "action_summary:") st then some (pystrip (st.drop 15))
  else none

/-- Lazy capture of `(.+?)(?=\nAction:|$)` (DOTALL, IGNORECASE): up to the
first `\nAction:` occurrence or the end of the text. -/
def takeUntilMarker : Str → Str
  | [] => []
  | c :: rest =>
    if ciStarts (lit "\naction:") (c :: rest) then [] else c :: takeUntilMarker rest

/-- Try the fallback regex `(?:Thought|Reflection|Action_Summary):\s*(.+?)(?=\nAction:|$)`
anchored at the current position; the returned group is already stripped. -/
def thoughtFallbackHere (s : Str) : Option Str :=
  match (ciDrop (lit "thought:") s <|> ciDrop (lit "reflection:") s <|>
         ciDrop (lit "action_summary:") s) with
  | none => none
  | some afterKey =>
    let w := afterKey.takeWhile isWSpy
    let rest := afterKey.dropWhile isWSpy
    match rest with
    | [] => if w.isEmpty then none else some []
    | c :: r2 => some (pystrip (c :: takeUntilMarker r2))

def thoughtFallbackScan : Str → Option Str
  | [] => none
  | c :: rest => thoughtFallbackHere (c :: rest) <|> thoughtFallbackScan rest

/-- Source `extract_thought`: line scan first, regex fallback second; empty
string when neither finds a tag. -/
def extract_thought (text : Str) : Str :=
  match (splitlines text).findSome? (fun l => lineThought (pystrip l)) with
  | some t => t
  | none => (thoughtFallbackScan text).getD []

/-! ### Verification verdict (`_verify_action`) and `call_user_prompt` -/

/-- Environment view of one `_verify_action` model call: the assembled
response text, or the two caught exception classes. -/
inductive VerifyResp where
  | ok (text : Str)
  | timeout
  | failure

/-- Regex `VERDICT:\s*(success|failed)` with IGNORECASE, leftmost match. -/
def findVerdict : Str → Option Bool
  | [] => none
  | c :: rest =>
    (match ciDrop (lit "verdict:") (c :: rest) with
     | some r1 =>
       let r2 := r1.dropWhile isWSpy
       if ciStarts (lit "success") r2 then some true
       else if ciStarts (lit "failed") r2 then some false
       else none
     | none => none) <|> findVerdict rest

/-- Source `description = text.strip() or "No change detected"`. -/
def verifyDescription (text : Str) : Str :=
  pyOrStr (pystrip text) (lit "No change detected")

/-- Source `_verify_action` outcome: `(description, succeeded)`; a missing
verdict, a timeout and an exception all report success. -/
def verify_action : VerifyResp → Str × Bool
  | .ok text =>
    let description := verifyDescription text
    match findVerdict description with
    | some b => (description, b)
    | none => (description, true)
  | .timeout => (lit "Verification timed out", true)
  | .failure => (lit "Verification unavailable", true)

/-- Source `call_user_prompt` (`prompts.py`): strip a leading `Thought:` or
`Reflection:` tag from the reason text. -/
def call_user_prompt (reason : Str) : Str :=
  let clean := pystrip reason
  if ciStarts (lit "thought:") clean then pystrip (clean.drop 8)
  else if ciStarts (lit "reflection:") clean then pystrip (clean.drop 11)
  else clean

/-! ### The ambiguous-step agent loop (`echo_prism_agent.run_ambiguous_step`)

Every external effect of one attempt is an explicit `AttemptEnv` value:
the fresh screenshot, the action-selection model response, the grounding
and zoom results, the operator outcome, the after/recheck screenshots and
the verification response.  The screenshot hash (`_screenshot_hash`, MD5 in
the source) is an abstract function parameter.  Prompt assembly, the
history observation window passed to the model, and the history append on
success influence only model inputs, which the environment already
abstracts, so they carry no observable state here. -/

abbrev Bytes := List Nat

/-- Source `MAX_RETRIES`. -/
def MAX_RETRIES : Nat := 3

/-- Source `_SKIP_SCENE_ACTIONS` — verbatim, including the `press_key` entry. -/
def SKIP_SCENE_ACTIONS : List Str :=
  [lit "navigate", lit "wait", lit "press_key", lit "hotkey", lit "scroll"]

/-- Source `_GROUNDING_ACTIONS`. -/
def GROUNDING_ACTIONS : List Str :=
  [lit "click", lit "doubleclick", lit "rightclick", lit "hover", lit "drag"]

/-- Grounding result (`perception.ElementLocation`). -/
structure ElementLocation where
  center_x : Int
  center_y : Int
  box_2d : List Int
  label : Str
  confidence : Str

/-- Operator outcome (`OperatorResult`). -/
inductive OpResult where
  | ok | fail | finished | calluser

/-- Environment of one attempt. -/
structure AttemptEnv where
  screenshot : Bytes := []
  geminiText : Str := []
  geminiErr : Option Str := none
  ground : Option ElementLocation := none
  zoom : Option ElementLocation := none
  opResult : OpResult := .fail
  afterScreenshot : Bytes := []
  retryScreenshot : Bytes := []
  verify : VerifyResp := .timeout

/-- How one attempt ended. -/
inductive AttemptKind where
  | geminiError | parseFailure | terminalFinished | terminalCalluser
  | opFailed | noChange | groundedSuccess | verifiedSuccess | verifyFailed
deriving DecidableEq, Repr

/-- Observable events of one attempt of the loop body. -/
structure AttemptEvents where
  sceneCalled : Bool := false
  geminiCalled : Bool := true
  groundCalled : Bool := false
  zoomCalls : Nat := 0
  hashEqualFirst : Bool := false
  recheckCount : Nat := 0
  recheckWaitMs : Option Nat := none
  recheckChanged : Option Bool := none
  verifyCalled : Bool := false
  parsedFinal : Option Dict := none
  locationFinal : Option ElementLocation := none
  kind : AttemptKind := .geminiError

/-- The loop's public result value. -/
inductive ResultV where
  | ok | failed | finished | calluser
deriving DecidableEq, Repr

/-- The 4-tuple `(result, thought, action_str, error)`. -/
structure RunReturn where
  result : ResultV
  thought : Str
  actionStr : Str
  error : Option Str

/-- One attempt either returns from the function or continues the loop. -/
inductive AttemptOut where
  | done (r : RunReturn)
  | retry (lastError thought actionStr : Str)

/-- Python truthiness of the optional error string from `_call_gemini`. -/
def truthyErr : Option Str → Bool
  | some s => !s.isEmpty
  | none => false

/-- `parsed.get("action", "")` (always a string in a parsed dict). -/
def parsedName (parsed : Dict) : Str :=
  match dget parsed "action" with
  | some (.s s) => s
  | _ => []

/-- The grounding coordinate override (agent lines 464–469): write the
grounded centre into `x1`/`y1` when the parsed dict has an `x1` key, else
into `x`/`y`. -/
def overrideCoords (parsed : Dict) (cx cy : Int) : Dict :=
  if hasKey parsed "x1" then dset (dset parsed "x1" (.i cx)) "y1" (.i cy)
  else dset (dset parsed "x" (.i cx)) "y" (.i cy)

/-- Trace string `f"{name}({', '.join(str(v) for v in kv.values())})"`. -/
def mkActionStr (name : Str) (parsed : Dict) : Str :=
  name ++ '(' :: (List.intercalate (lit ", ")
    ((parsed.filter (fun p => p.1 ≠ "action")).map (fun p => pyStrOfVal p.2))) ++ [')']

/-- Source `"Screenshots identical after action — no visible change detected"`. -/
def noChangeMsg : Str := lit "Screenshots identical after action — no visible change detected"

/-- Scene gating (agent lines 362–375): `perceive_scene` runs only on
attempt 0, only when no prefetched caption was passed, and only when the
normalized step action is not in `_SKIP_SCENE_ACTIONS`. -/
def sceneGate (norm : Str) (prefetched : Option Str) (attempt : Nat) : Bool :=
  attempt == 0 && prefetched.isNone && !(decide (norm ∈ SKIP_SCENE_ACTIONS))

/-- Tier-2 grounding (agent lines 427–440): only for pointer actions. -/
def groundLocation (e : AttemptEnv) (parsed0 : Dict) : Option ElementLocation :=
  if decide (parsedName parsed0 ∈ GROUNDING_ACTIONS) then e.ground else none

/-- The zoom guard (agent line 442): `location and location.confidence ==
"medium" and location.box_2d`. -/
def zoomHit : Option ElementLocation → Bool
  | some l => decide (l.confidence = lit "medium") && !l.box_2d.isEmpty
  | none => false

/-- Zoom re-grounding (agent lines 443–457): replace the location with the
refined one only when the zoom call returned something. -/
def refineLocation (e : AttemptEnv) (loc : Option ElementLocation) :
    Option ElementLocation :=
  if zoomHit loc then (match e.zoom with | some r => some r | none => loc)
  else loc

/-- Coordinate override (agent lines 459–469): applied for high or medium
confidence. -/
def applyOverride (parsed0 : Dict) : Option ElementLocation → Dict
  | some l =>
    if l.confidence = lit "high" ∨ l.confidence = lit "medium" then
      overrideCoords parsed0 l.center_x l.center_y
    else parsed0
  | none => parsed0

/-- State-transition verification (agent lines 552–573). -/
def verifyPhase (e : AttemptEnv) (thought actionStr : Str) (ev : AttemptEvents) :
    AttemptOut × AttemptEvents :=
  if (verify_action e.verify).2 then
    (.done ⟨.ok, thought, actionStr, none⟩,
      { ev with verifyCalled := true, kind := .verifiedSuccess })
  else
    (.retry (lit "Action appeared to have no effect: " ++
        (verify_action e.verify).1.take 200) thought actionStr,
      { ev with verifyCalled := true, kind := .verifyFailed })

/-- Verification skip (agent lines 537–550): a high-confidence grounding plus
a changed pixel hash short-circuits the verification call. -/
def verifySkipPhase (e : AttemptEnv) (thought actionStr : Str)
    (loc : Option ElementLocation) (ev : AttemptEvents) :
    AttemptOut × AttemptEvents :=
  match loc with
  | some l =>
    if l.confidence = lit "high" then
      (.done ⟨.ok, thought, actionStr, none⟩, { ev with kind := .groundedSuccess })
    else verifyPhase e thought actionStr ev
  | none => verifyPhase e thought actionStr ev

/-- Pixel-hash gate (agent lines 504–535): on identical before/after hashes,
attempts below `MAX_RETRIES` get exactly one extra wait (1.5 s times the
1-based attempt number) and one fresh re-check screenshot; the final attempt
fails directly.  A changed re-check hash proceeds to verification. -/
def hashPhase (hash : Bytes → Nat) (e : AttemptEnv) (attempt : Nat)
    (thought actionStr : Str) (loc : Option ElementLocation) (ev : AttemptEvents) :
    AttemptOut × AttemptEvents :=
  if hash e.screenshot = hash e.afterScreenshot then
    if attempt < MAX_RETRIES then
      if hash e.retryScreenshot ≠ hash e.screenshot then
        verifySkipPhase e thought actionStr loc
          { ev with
            hashEqualFirst := true
            recheckCount := 1
            recheckWaitMs := some (1500 * (attempt + 1))
            recheckChanged := some true }
      else
        (.retry noChangeMsg thought actionStr,
          { ev with
            hashEqualFirst := true
            recheckCount := 1
            recheckWaitMs := some (1500 * (attempt + 1))
            recheckChanged := some false
            kind := .noChange })
    else
      (.retry noChangeMsg thought actionStr,
        { ev with hashEqualFirst := true, kind := .noChange })
  else verifySkipPhase e thought actionStr loc ev

/-- Operator dispatch (agent lines 479–503 and 575–577): terminal sentinels
return immediately; `False` retries; `True` proceeds to the hash gate. -/
def opPhase (hash : Bytes → Nat) (e : AttemptEnv) (attempt : Nat)
    (thought actionStr : Str) (loc : Option ElementLocation) (ev : AttemptEvents) :
    AttemptOut × AttemptEvents :=
  match e.opResult with
  | .finished => (.done ⟨.finished, thought, actionStr, none⟩,
      { ev with kind := .terminalFinished })
  | .calluser =>
    (.done ⟨.calluser, thought, actionStr,
        some (if thought.isEmpty then lit "Agent requested user intervention"
          else call_user_prompt thought)⟩,
      { ev with kind := .terminalCalluser })
  | .fail =>
    (.retry (lit "Operator returned False for action: " ++ actionStr) thought actionStr,
      { ev with kind := .opFailed })
  | .ok => hashPhase hash e attempt thought actionStr loc ev

/-- One iteration of the `for attempt in range(MAX_RETRIES + 1)` body. -/
def attemptBody (hash : Bytes → Nat) (stepActionNorm : Str) (prefetched : Option Str)
    (attempt : Nat) (thought0 actionStr0 : Str) (e : AttemptEnv) :
    AttemptOut × AttemptEvents :=
  if truthyErr e.geminiErr then
    (.retry (e.geminiErr.getD []) thought0 actionStr0,
      { sceneCalled := sceneGate stepActionNorm prefetched attempt
        kind := .geminiError })
  else
    match parse_action e.geminiText with
    | none =>
      (.retry (lit "Could not parse action from model output: " ++ e.geminiText.take 200)
        (extract_thought e.geminiText) actionStr0,
        { sceneCalled := sceneGate stepActionNorm prefetched attempt
          kind := .parseFailure })
    | some parsed0 =>
      opPhase hash e attempt (extract_thought e.geminiText)
        (mkActionStr (parsedName parsed0)
          (applyOverride parsed0 (refineLocation e (groundLocation e parsed0))))
        (refineLocation e (groundLocation e parsed0))
        { sceneCalled := sceneGate stepActionNorm prefetched attempt
          groundCalled := decide (parsedName parsed0 ∈ GROUNDING_ACTIONS)
          zoomCalls := if zoomHit (groundLocation e parsed0) then 1 else 0
          locationFinal := refineLocation e (groundLocation e parsed0)
          parsedFinal := some (applyOverride parsed0
            (refineLocation e (groundLocation e parsed0)))
          kind := .geminiError }

/-- Aggregate result of the whole call: the returned tuple, the per-attempt
event trace (one entry per executed attempt, in order), whether the loop
exhausted all attempts, and the final `last_error`. -/
structure RunOut where
  ret : RunReturn
  trace : List AttemptEvents
  exhausted : Bool
  finalError : Str

/-- Source `f"Stuck after {MAX_RETRIES + 1} attempts — {last_error or 'no clear reason'}"`. -/
def stuckMsg (lastError : Str) : Str :=
  lit "Stuck after " ++ natStr (MAX_RETRIES + 1) ++ lit " attempts — " ++
  (if lastError.isEmpty then lit "no clear reason" else lastError)

/-- The attempt loop; `fuel` counts the attempts still allowed, so the loop
is entered with `fuel = MAX_RETRIES + 1` and `attempt = 0`. -/
def runLoop (hash : Bytes → Nat) (norm : Str) (prefetched : Option Str)
    (env : Nat → AttemptEnv) :
    Nat → Nat → Str → Str → Str → RunOut
  | 0, _, lastError, thought, actionStr =>
    ⟨⟨.calluser, thought, actionStr, some (stuckMsg lastError)⟩, [], true, lastError⟩
  | fuel + 1, attempt, lastError, thought, actionStr =>
    match attemptBody hash norm prefetched attempt thought actionStr (env attempt) with
    | (.done r, ev) => ⟨r, [ev], false, lastError⟩
    | (.retry le th as, ev) =>
      let o := runLoop hash norm prefetched env fuel (attempt + 1) le th as
      ⟨o.ret, ev :: o.trace, o.exhausted, o.finalError⟩

/-- Source `run_ambiguous_step`: the two setup guards, then the attempt
loop.  All model/browser effects come from `env`. -/
def run_ambiguous_step (hash : Bytes → Nat) (hasGenai : Bool) (key : Str)
    (step : Step) (prefetched : Option Str) (env : Nat → AttemptEnv) : RunOut :=
  if !hasGenai then
    ⟨⟨.failed, [], [], some (lit "google-genai not installed")⟩, [], false, []⟩
  else if key.isEmpty then
    ⟨⟨.failed, [], [], some (lit "GEMINI_API_KEY not set")⟩, [], false, []⟩
  else
    runLoop hash (normAction step.action) prefetched env (MAX_RETRIES + 1) 0 [] [] []

/-! ## Shared helper lemmas -/

theorem ite_true_bool (p : Prop) [Decidable p] (r : Bool) :
    (if p then true else r) = (decide p || r) := by
  by_cases h : p <;> simp [h]

theorem dget_dset_self (d : Dict) (k : String) (v : Val) :
    dget (dset d k v) k = some v := by
  induction d with
  | nil => simp [dset, dget, List.find?]
  | cons p t ih =>
    by_cases h : p.1 = k
    · simp [dset, h, dget, List.find?]
    · simp only [dset, h, if_false]
      simpa [dget, List.find?, h] using ih

theorem dget_dset_ne (d : Dict) (k k' : String) (v : Val) (h : k' ≠ k) :
    dget (dset d k v) k' = dget d k' := by
  have hne : ¬(k = k') := fun hh => h hh.symm
  induction d with
  | nil => simp [dset, dget, List.find?, hne]
  | cons p t ih =>
    by_cases hp : p.1 = k
    · rw [show dset (p :: t) k v = (k, v) :: t by simp [dset, hp]]
      simp [dget, List.find?, hne, hp]
    · rw [show dset (p :: t) k v = p :: dset t k v by simp [dset, hp]]
      by_cases hq : p.1 = k'
      · simp [dget, List.find?, hq]
      · simpa [dget, List.find?, hq] using ih

theorem find?_of_least {α : Type} (p : α → Bool) :
    ∀ (l : List α) (i : Nat) (x : α), l[i]? = some x → p x = true →
      (∀ j y, j < i → l[j]? = some y → p y = false) → l.find? p = some x := by
  intro l
  induction l with
  | nil => intro i x hx; simp at hx
  | cons a t ih =>
    intro i x hx hpx hleast
    cases i with
    | zero =>
      simp at hx
      subst hx
      simp [List.find?, hpx]
    | succ n =>
      have ha : p a = false := hleast 0 a (Nat.succ_pos n) (by simp)
      simp only [List.find?, ha]
      exact ih n x (by simpa using hx) hpx
        (fun j y hj hy => hleast (j + 1) y (Nat.succ_lt_succ hj) (by simpa using hy))

theorem takeWhile_all_append (p : Char → Bool) (l1 l2 : Str)
    (h : ∀ c ∈ l1, p c = true) :
    (l1 ++ l2).takeWhile p = l1 ++ l2.takeWhile p := by
  induction l1 with
  | nil => simp
  | cons c t ih =>
    have hc : p c = true := h c (by simp)
    simp only [List.cons_append, List.takeWhile_cons, hc, if_true]
    rw [ih (fun d hd => h d (by simp [hd]))]

theorem dropWhile_all_append (p : Char → Bool) (l1 l2 : Str)
    (h : ∀ c ∈ l1, p c = true) :
    (l1 ++ l2).dropWhile p = l2.dropWhile p := by
  induction l1 with
  | nil => simp
  | cons c t ih =>
    have hc : p c = true := h c (by simp)
    simp only [List.cons_append, List.dropWhile_cons, hc, if_true]
    exact ih (fun d hd => h d (by simp [hd]))

/-! ## Claim theorems -/

/-- C3: `is_deterministic` returns true exactly when one of the claim's
enumerated conditions holds (api_call; navigate with truthy url; truthy
selector; both x and y keys; wait; press_key with key; scroll with
direction; select_option with selector and value; hover with selector or
both coordinates; wait_for_element with selector), and false otherwise. -/
theorem deterministic_classifier_iff (step : Step) :
    is_deterministic step = true ↔ specDeterministic step := by
  unfold is_deterministic specDeterministic
  simp only [ite_true_bool, Bool.or_eq_true, decide_eq_true_eq]
  tauto

/-- C6: the step is reported failed only when a `VERDICT: failed` token is
found; a missing verdict token reports success, and a verification timeout
or exception also reports success (fail-open). -/
theorem verify_fail_open (r : VerifyResp) :
    ((verify_action r).2 = false ↔
      ∃ t, r = .ok t ∧ findVerdict (verifyDescription t) = some false)
    ∧ (∀ t, findVerdict (verifyDescription t) = none →
        (verify_action (.ok t)).2 = true)
    ∧ (verify_action .timeout).2 = true ∧ (verify_action .failure).2 = true := by
  refine ⟨?_, ?_, rfl, rfl⟩
  · cases r with
    | ok t =>
      unfold verify_action
      cases h : findVerdict (verifyDescription t) with
      | none => simp [h]
      | some b => cases b <;> simp [h]
    | timeout => simp [verify_action]
    | failure => simp [verify_action]
  · intro t h
    unfold verify_action
    simp [h]

/-- C6 witness: a response with no verdict token is reported as succeeded. -/
theorem verify_fail_open_witness :
    findVerdict (verifyDescription (lit "all good")) = none ∧
    (verify_action (.ok (lit "all good"))).2 = true :=
  ⟨rfl, (verify_fail_open (.ok (lit "all good"))).2.1 (lit "all good") rfl⟩

/-- C9 (counterexample): a drag action whose coordinates failed to parse has
no `x1` key, so the grounding override writes `x` and `y` onto the drag dict
— contradicting "for a drag action, only the start coordinates x1 and y1 are
replaced". Reached in the loop body with a high-confidence grounding. -/
theorem drag_override_writes_xy :
    parse_action (lit "Action: Drag(300, 400)") = some [("action", Val.s (lit "drag"))]
    ∧ (attemptBody (fun b => b.length) (lit "drag") none 0 [] []
        { geminiText := lit "Action: Drag(300, 400)"
          ground := some ⟨100, 200, [0, 0, 10, 10], [], lit "high"⟩
          opResult := .finished }).2.parsedFinal =
      some [("action", Val.s (lit "drag")), ("x", Val.i 100), ("y", Val.i 200)] :=
  ⟨rfl, rfl⟩

/-- C9 (amended): the override keys on the presence of `x1` in the parsed
dict: with `x1` present only `x1`/`y1` are rewritten, otherwise only `x`/`y`
are set; every other key keeps its value (in particular a drag's `x2`/`y2`). -/
theorem override_replaces_only_coords (parsed : Dict) (cx cy : Int) :
    (hasKey parsed "x1" = true →
      dget (overrideCoords parsed cx cy) "x1" = some (.i cx) ∧
      dget (overrideCoords parsed cx cy) "y1" = some (.i cy) ∧
      ∀ k : String, k ≠ "x1" → k ≠ "y1" →
        dget (overrideCoords parsed cx cy) k = dget parsed k)
    ∧ (hasKey parsed "x1" = false →
      dget (overrideCoords parsed cx cy) "x" = some (.i cx) ∧
      dget (overrideCoords parsed cx cy) "y" = some (.i cy) ∧
      ∀ k : String, k ≠ "x" → k ≠ "y" →
        dget (overrideCoords parsed cx cy) k = dget parsed k) := by
  constructor
  · intro h
    unfold overrideCoords
    simp only [h, if_true]
    refine ⟨?_, ?_, ?_⟩
    · rw [dget_dset_ne _ _ _ _ (by decide), dget_dset_self]
    · rw [dget_dset_self]
    · intro k h1 h2
      rw [dget_dset_ne _ _ _ _ h2, dget_dset_ne _ _ _ _ h1]
  · intro h
    unfold overrideCoords
    simp only [h, Bool.false_eq_true, if_false]
    refine ⟨?_, ?_, ?_⟩
    · rw [dget_dset_ne _ _ _ _ (by decide), dget_dset_self]
    · rw [dget_dset_self]
    · intro k h1 h2
      rw [dget_dset_ne _ _ _ _ h2, dget_dset_ne _ _ _ _ h1]

/-- C9 witness: on a fully parsed drag, the override rewrites `x1`/`y1` and
leaves the end coordinates `x2`/`y2` unchanged. -/
theorem override_replaces_only_coords_witness :
    hasKey [("action", Val.s (lit "drag")), ("x1", Val.i 1), ("y1", Val.i 2),
            ("x2", Val.i 3), ("y2", Val.i 4)] "x1" = true
    ∧ dget (overrideCoords [("action", Val.s (lit "drag")), ("x1", Val.i 1),
        ("y1", Val.i 2), ("x2", Val.i 3), ("y2", Val.i 4)] 9 8) "x1" = some (.i 9)
    ∧ dget (overrideCoords [("action", Val.s (lit "drag")), ("x1", Val.i 1),
        ("y1", Val.i 2), ("x2", Val.i 3), ("y2", Val.i 4)] 9 8) "x2" =
      dget [("action", Val.s (lit "drag")), ("x1", Val.i 1), ("y1", Val.i 2),
        ("x2", Val.i 3), ("y2", Val.i 4)] "x2" := by
  have h := (override_replaces_only_coords
    [("action", Val.s (lit "drag")), ("x1", Val.i 1), ("y1", Val.i 2),
     ("x2", Val.i 3), ("y2", Val.i 4)] 9 8).1 rfl
  exact ⟨rfl, h.1, h.2.2 "x2" (by decide) (by decide)⟩

/-- C7 (code bug): the source set `_SKIP_SCENE_ACTIONS` lists `press_key`,
but the step action is compared only after `.replace("_", "")`, which turns
`press_key` into `presskey`; so a `press_key` step on attempt 0 with no
prefetched caption still invokes scene captioning. -/
theorem press_key_scene_not_skipped :
    (lit "press_key") ∈ SKIP_SCENE_ACTIONS
    ∧ normAction (some (lit "press_key")) = lit "presskey"
    ∧ (attemptBody (fun b => b.length) (normAction (some (lit "press_key"))) none 0 [] []
        { geminiErr := some (lit "e") }).2.sceneCalled = true
    ∧ (attemptBody (fun b => b.length) (normAction (some (lit "scroll"))) none 0 [] []
        { geminiErr := some (lit "e") }).2.sceneCalled = false := by
  exact ⟨by decide, rfl, rfl, rfl⟩

theorem filterMap_len_le {α β : Type} (f : α → Option β) (l : List α) :
    (l.filterMap f).length ≤ l.length := by
  induction l with
  | nil => simp
  | cons a t ih =>
    rw [List.filterMap_cons]
    cases f a <;> simp <;> omega

/-- C10 (counterexample): with `n_images = 0` the Python slice `history[-0:]`
is the whole history, so `build_context` returns one screenshot instead of at
most zero (and the summary is empty rather than covering all entries). -/
theorem build_context_zero_images :
    build_context [[("screenshot", Val.bytes [7]), ("thought", Val.s (lit "t"))]] 0 true =
      Except.ok ([[7]], ([] : Str))
    ∧ ¬(([[7]] : List (List Nat)).length ≤ 0) := ⟨rfl, by decide⟩

/-- C10 (amended): `build_context` errors exactly on an empty history; for
`n_images ≥ 1` it returns the screenshots of the last `n_images` entries (at
most `n_images` of them) and a summary built from exactly the older entries
(empty when the history has at most `n_images` entries, since then nothing is
older).  For `n_images = 0`, screenshots come from the whole history and the
summary is empty (Python slicing of `-0`). -/
theorem build_context_window (history : List Dict) (n : Nat) :
    ((∃ s, build_context history n true = Except.error s) ↔ history = [])
    ∧ (1 ≤ n → history ≠ [] →
        build_context history n true =
          Except.ok ((history.drop (history.length - n)).filterMap entryShot,
            olderSummary (history.take (history.length - n)))
        ∧ ((history.drop (history.length - n)).filterMap entryShot).length ≤ n) := by
  constructor
  · constructor
    · intro ⟨s, hs⟩
      by_cases h : history = []
      · exact h
      · unfold build_context at hs
        simp [h] at hs
    · intro h
      subst h
      exact ⟨_, rfl⟩
  · intro hn hne
    have hie : history.isEmpty = false := by
      cases history with
      | nil => exact absurd rfl hne
      | cons a t => rfl
    have hn0 : n ≠ 0 := by omega
    constructor
    · unfold build_context
      simp only [hie, Bool.false_eq_true, if_false]
      have hrecent :
          (if n ≤ history.length then sliceLastN history n else history) =
            history.drop (history.length - n) := by
        by_cases hle : n ≤ history.length
        · simp [hle, sliceLastN, hn0]
        · have : history.length - n = 0 := by omega
          simp [hle, this]
      have hsum :
          (if True ∧ n < history.length then olderSummary (sliceDropLastN history n)
            else ([] : Str)) = olderSummary (history.take (history.length - n)) := by
        by_cases hlt : n < history.length
        · simp [hlt, sliceDropLastN, hn0]
        · have h0 : history.length - n = 0 := by omega
          simp only [hlt, false_and, and_false, if_false, h0, List.take_zero]
          rfl
      rw [hrecent, hsum]
    · calc ((history.drop (history.length - n)).filterMap entryShot).length
          ≤ (history.drop (history.length - n)).length :=
            filterMap_len_le entryShot _
        _ ≤ n := by
            rw [List.length_drop]
            omega

/-- C10 witness: a two-entry history with `n_images = 1` keeps only the most
recent screenshot, and the summary covers exactly the one older entry. -/
theorem build_context_window_witness :
    build_context [[("screenshot", Val.bytes [5])], [("screenshot", Val.bytes [7])]] 1 true =
      Except.ok (([[("screenshot", Val.bytes [5])], [("screenshot", Val.bytes [7])]].drop
          ((2 : Nat) - 1)).filterMap entryShot,
        olderSummary ([[("screenshot", Val.bytes [5])], [("screenshot", Val.bytes [7])]].take
          ((2 : Nat) - 1))) :=
  ((build_context_window
    [[("screenshot", Val.bytes [5])], [("screenshot", Val.bytes [7])]] 1).2
    (by decide) (by simp)).1

theorem verifyPhase_keeps (e : AttemptEnv) (th as : Str) (ev : AttemptEvents) :
    (verifyPhase e th as ev).2.recheckCount = ev.recheckCount
    ∧ (verifyPhase e th as ev).2.hashEqualFirst = ev.hashEqualFirst
    ∧ (verifyPhase e th as ev).2.recheckChanged = ev.recheckChanged
    ∧ (verifyPhase e th as ev).2.recheckWaitMs = ev.recheckWaitMs
    ∧ (verifyPhase e th as ev).2.kind ≠ .noChange := by
  unfold verifyPhase
  split <;> exact ⟨rfl, rfl, rfl, rfl, fun hk => AttemptKind.noConfusion hk⟩

theorem verifySkipPhase_keeps (e : AttemptEnv) (th as : Str)
    (loc : Option ElementLocation) (ev : AttemptEvents) :
    (verifySkipPhase e th as loc ev).2.recheckCount = ev.recheckCount
    ∧ (verifySkipPhase e th as loc ev).2.hashEqualFirst = ev.hashEqualFirst
    ∧ (verifySkipPhase e th as loc ev).2.recheckChanged = ev.recheckChanged
    ∧ (verifySkipPhase e th as loc ev).2.recheckWaitMs = ev.recheckWaitMs
    ∧ (verifySkipPhase e th as loc ev).2.kind ≠ .noChange := by
  unfold verifySkipPhase
  split
  · split
    · exact ⟨rfl, rfl, rfl, rfl, fun hk => AttemptKind.noConfusion hk⟩
    · exact verifyPhase_keeps e th as ev
  · exact verifyPhase_keeps e th as ev

theorem hashPhase_events (hash : Bytes → Nat) (e : AttemptEnv) (attempt : Nat)
    (th as : Str) (loc : Option ElementLocation) (ev : AttemptEvents)
    (h0 : ev.recheckCount = 0) (h1 : ev.hashEqualFirst = false)
    (h2 : ev.recheckChanged = none) :
    (hashPhase hash e attempt th as loc ev).2.recheckCount ≤ 1
    ∧ ((hashPhase hash e attempt th as loc ev).2.hashEqualFirst = true ↔
        hash e.screenshot = hash e.afterScreenshot)
    ∧ ((hashPhase hash e attempt th as loc ev).2.hashEqualFirst = true →
        attempt < MAX_RETRIES →
        (hashPhase hash e attempt th as loc ev).2.recheckCount = 1
        ∧ (hashPhase hash e attempt th as loc ev).2.recheckWaitMs =
            some (1500 * (attempt + 1)))
    ∧ ((hashPhase hash e attempt th as loc ev).2.hashEqualFirst = true →
        MAX_RETRIES ≤ attempt →
        (hashPhase hash e attempt th as loc ev).2.recheckCount = 0
        ∧ (hashPhase hash e attempt th as loc ev).2.kind = .noChange)
    ∧ ((hashPhase hash e attempt th as loc ev).2.recheckChanged = some false →
        (hashPhase hash e attempt th as loc ev).2.kind = .noChange)
    ∧ ((hashPhase hash e attempt th as loc ev).2.recheckChanged = some true →
        (hashPhase hash e attempt th as loc ev).2.kind ≠ .noChange) := by
  unfold hashPhase
  split
  · rename_i heq
    split
    · rename_i hlt
      split
      · rename_i hretry
        have k := verifySkipPhase_keeps e th as loc
          { ev with
            hashEqualFirst := true
            recheckCount := 1
            recheckWaitMs := some (1500 * (attempt + 1))
            recheckChanged := some true }
        refine ⟨?_, ?_, ?_, ?_, ?_, ?_⟩
        · exact Nat.le_of_eq k.1
        · rw [k.2.1]; simp [heq]
        · intro _ _; exact ⟨k.1, k.2.2.2.1⟩
        · intro _ hge; exact absurd hlt (by omega)
        · intro hc
          rw [k.2.2.1] at hc
          have hc' : (some true : Option Bool) = some false := hc
          simp at hc'
        · intro _; exact k.2.2.2.2
      · refine ⟨?_, ?_, ?_, ?_, ?_, ?_⟩
        · exact Nat.le_refl 1
        · simp [heq]
        · intro _ _; exact ⟨rfl, rfl⟩
        · intro _ hge; exact absurd hlt (by omega)
        · intro _; rfl
        · intro hc
          have hc' : (some false : Option Bool) = some true := hc
          simp at hc'
    · rename_i hge
      refine ⟨?_, ?_, ?_, ?_, ?_, ?_⟩
      · exact h0 ▸ Nat.zero_le 1
      · simp [heq]
      · intro _ hlt; exact absurd hlt hge
      · intro _ _; exact ⟨h0, rfl⟩
      · intro _; rfl
      · intro hc
        have hc' : ev.recheckChanged = some true := hc
        rw [h2] at hc'
        exact Option.noConfusion hc'
  · rename_i hne
    have k := verifySkipPhase_keeps e th as loc ev
    refine ⟨?_, ?_, ?_, ?_, ?_, ?_⟩
    · rw [k.1, h0]; exact Nat.zero_le 1
    · rw [k.2.1, h1]
      constructor
      · intro hh; exact absurd hh (by simp)
      · intro hh; exact absurd hh hne
    · intro hh; rw [k.2.1, h1] at hh; exact absurd hh (by simp)
    · intro hh; rw [k.2.1, h1] at hh; exact absurd hh (by simp)
    · intro hc; rw [k.2.2.1, h2] at hc; exact Option.noConfusion hc
    · intro _; exact k.2.2.2.2

theorem opPhase_recheck (hash : Bytes → Nat) (e : AttemptEnv) (attempt : Nat)
    (th as : Str) (loc : Option ElementLocation) (ev : AttemptEvents)
    (h0 : ev.recheckCount = 0) (h1 : ev.hashEqualFirst = false)
    (h2 : ev.recheckChanged = none) :
    (opPhase hash e attempt th as loc ev).2.recheckCount ≤ 1
    ∧ ((opPhase hash e attempt th as loc ev).2.hashEqualFirst = true →
        hash e.screenshot = hash e.afterScreenshot)
    ∧ ((opPhase hash e attempt th as loc ev).2.hashEqualFirst = true →
        attempt < MAX_RETRIES →
        (opPhase hash e attempt th as loc ev).2.recheckCount = 1
        ∧ (opPhase hash e attempt th as loc ev).2.recheckWaitMs =
            some (1500 * (attempt + 1)))
    ∧ ((opPhase hash e attempt th as loc ev).2.hashEqualFirst = true →
        MAX_RETRIES ≤ attempt →
        (opPhase hash e attempt th as loc ev).2.recheckCount = 0
        ∧ (opPhase hash e attempt th as loc ev).2.kind = .noChange)
    ∧ ((opPhase hash e attempt th as loc ev).2.recheckChanged = some false →
        (opPhase hash e attempt th as loc ev).2.kind = .noChange)
    ∧ ((opPhase hash e attempt th as loc ev).2.recheckChanged = some true →
        (opPhase hash e attempt th as loc ev).2.kind ≠ .noChange) := by
  unfold opPhase
  cases e.opResult with
  | ok =>
    have k := hashPhase_events hash e attempt th as loc ev h0 h1 h2
    exact ⟨k.1, fun hh => k.2.1.mp hh, k.2.2.1, k.2.2.2.1, k.2.2.2.2.1, k.2.2.2.2.2⟩
  | finished =>
    refine ⟨?_, ?_, ?_, ?_, ?_, ?_⟩
    · exact h0 ▸ Nat.zero_le 1
    · intro hh; have hh' : ev.hashEqualFirst = true := hh
      rw [h1] at hh'; exact Bool.noConfusion hh'
    · intro hh _; have hh' : ev.hashEqualFirst = true := hh
      rw [h1] at hh'; exact Bool.noConfusion hh'
    · intro hh _; have hh' : ev.hashEqualFirst = true := hh
      rw [h1] at hh'; exact Bool.noConfusion hh'
    · intro hc; have hc' : ev.recheckChanged = some false := hc
      rw [h2] at hc'; exact Option.noConfusion hc'
    · intro hc; have hc' : ev.recheckChanged = some true := hc
      rw [h2] at hc'; exact Option.noConfusion hc'
  | calluser =>
    refine ⟨?_, ?_, ?_, ?_, ?_, ?_⟩
    · exact h0 ▸ Nat.zero_le 1
    · intro hh; have hh' : ev.hashEqualFirst = true := hh
      rw [h1] at hh'; exact Bool.noConfusion hh'
    · intro hh _; have hh' : ev.hashEqualFirst = true := hh
      rw [h1] at hh'; exact Bool.noConfusion hh'
    · intro hh _; have hh' : ev.hashEqualFirst = true := hh
      rw [h1] at hh'; exact Bool.noConfusion hh'
    · intro hc; have hc' : ev.recheckChanged = some false := hc
      rw [h2] at hc'; exact Option.noConfusion hc'
    · intro hc; have hc' : ev.recheckChanged = some true := hc
      rw [h2] at hc'; exact Option.noConfusion hc'
  | fail =>
    refine ⟨?_, ?_, ?_, ?_, ?_, ?_⟩
    · exact h0 ▸ Nat.zero_le 1
    · intro hh; have hh' : ev.hashEqualFirst = true := hh
      rw [h1] at hh'; exact Bool.noConfusion hh'
    · intro hh _; have hh' : ev.hashEqualFirst = true := hh
      rw [h1] at hh'; exact Bool.noConfusion hh'
    · intro hh _; have hh' : ev.hashEqualFirst = true := hh
      rw [h1] at hh'; exact Bool.noConfusion hh'
    · intro hc; have hc' : ev.recheckChanged = some false := hc
      rw [h2] at hc'; exact Option.noConfusion hc'
    · intro hc; have hc' : ev.recheckChanged = some true := hc
      rw [h2] at hc'; exact Option.noConfusion hc'

/-- C5 (amended): within one attempt, when the after-hash equals the
before-hash, the controller performs exactly ONE wait-and-recheck cycle —
not up to MAX_RETRIES of them — with a pause of 1.5 s times the 1-based
attempt number, and only on attempts below MAX_RETRIES; on the final attempt
no recheck occurs and `no visible change` is concluded immediately.  If the
re-check shows a changed hash the attempt proceeds (not a no-change
failure); if it is still unchanged the whole attempt is retried. -/
theorem hash_recheck_per_attempt (hash : Bytes → Nat) (norm : Str)
    (pre : Option Str) (attempt : Nat) (th as : Str) (e : AttemptEnv) :
    (attemptBody hash norm pre attempt th as e).2.recheckCount ≤ 1
    ∧ ((attemptBody hash norm pre attempt th as e).2.hashEqualFirst = true →
        hash e.screenshot = hash e.afterScreenshot)
    ∧ ((attemptBody hash norm pre attempt th as e).2.hashEqualFirst = true →
        attempt < MAX_RETRIES →
        (attemptBody hash norm pre attempt th as e).2.recheckCount = 1
        ∧ (attemptBody hash norm pre attempt th as e).2.recheckWaitMs =
            some (1500 * (attempt + 1)))
    ∧ ((attemptBody hash norm pre attempt th as e).2.hashEqualFirst = true →
        MAX_RETRIES ≤ attempt →
        (attemptBody hash norm pre attempt th as e).2.recheckCount = 0
        ∧ (attemptBody hash norm pre attempt th as e).2.kind = .noChange)
    ∧ ((attemptBody hash norm pre attempt th as e).2.recheckChanged = some false →
        (attemptBody hash norm pre attempt th as e).2.kind = .noChange)
    ∧ ((attemptBody hash norm pre attempt th as e).2.recheckChanged = some true →
        (attemptBody hash norm pre attempt th as e).2.kind ≠ .noChange) := by
  unfold attemptBody
  split
  · refine ⟨Nat.zero_le 1, ?_, ?_, ?_, ?_, ?_⟩
    · intro hh; exact Bool.noConfusion hh
    · intro hh _; exact Bool.noConfusion hh
    · intro hh _; exact Bool.noConfusion hh
    · intro hc; exact Option.noConfusion hc
    · intro hc; exact Option.noConfusion hc
  · split
    · refine ⟨Nat.zero_le 1, ?_, ?_, ?_, ?_, ?_⟩
      · intro hh; exact Bool.noConfusion hh
      · intro hh _; exact Bool.noConfusion hh
      · intro hh _; exact Bool.noConfusion hh
      · intro hc; exact Option.noConfusion hc
      · intro hc; exact Option.noConfusion hc
    · exact opPhase_recheck hash e attempt _ _ _ _ rfl rfl rfl

theorem verifyPhase_keeps_ground (e : AttemptEnv) (th as : Str) (ev : AttemptEvents) :
    (verifyPhase e th as ev).2.zoomCalls = ev.zoomCalls
    ∧ (verifyPhase e th as ev).2.locationFinal = ev.locationFinal
    ∧ (verifyPhase e th as ev).2.parsedFinal = ev.parsedFinal
    ∧ (verifyPhase e th as ev).2.groundCalled = ev.groundCalled
    ∧ (verifyPhase e th as ev).2.sceneCalled = ev.sceneCalled
    ∧ (verifyPhase e th as ev).2.geminiCalled = ev.geminiCalled := by
  unfold verifyPhase
  split <;> exact ⟨rfl, rfl, rfl, rfl, rfl, rfl⟩

theorem verifySkipPhase_keeps_ground (e : AttemptEnv) (th as : Str)
    (loc : Option ElementLocation) (ev : AttemptEvents) :
    (verifySkipPhase e th as loc ev).2.zoomCalls = ev.zoomCalls
    ∧ (verifySkipPhase e th as loc ev).2.locationFinal = ev.locationFinal
    ∧ (verifySkipPhase e th as loc ev).2.parsedFinal = ev.parsedFinal
    ∧ (verifySkipPhase e th as loc ev).2.groundCalled = ev.groundCalled
    ∧ (verifySkipPhase e th as loc ev).2.sceneCalled = ev.sceneCalled
    ∧ (verifySkipPhase e th as loc ev).2.geminiCalled = ev.geminiCalled := by
  unfold verifySkipPhase
  split
  · split
    · exact ⟨rfl, rfl, rfl, rfl, rfl, rfl⟩
    · exact verifyPhase_keeps_ground e th as ev
  · exact verifyPhase_keeps_ground e th as ev

theorem hashPhase_keeps_ground (hash : Bytes → Nat) (e : AttemptEnv) (attempt : Nat)
    (th as : Str) (loc : Option ElementLocation) (ev : AttemptEvents) :
    (hashPhase hash e attempt th as loc ev).2.zoomCalls = ev.zoomCalls
    ∧ (hashPhase hash e attempt th as loc ev).2.locationFinal = ev.locationFinal
    ∧ (hashPhase hash e attempt th as loc ev).2.parsedFinal = ev.parsedFinal
    ∧ (hashPhase hash e attempt th as loc ev).2.groundCalled = ev.groundCalled
    ∧ (hashPhase hash e attempt th as loc ev).2.sceneCalled = ev.sceneCalled
    ∧ (hashPhase hash e attempt th as loc ev).2.geminiCalled = ev.geminiCalled := by
  unfold hashPhase
  split
  · split
    · split
      · exact verifySkipPhase_keeps_ground e th as loc _
      · exact ⟨rfl, rfl, rfl, rfl, rfl, rfl⟩
    · exact ⟨rfl, rfl, rfl, rfl, rfl, rfl⟩
  · exact verifySkipPhase_keeps_ground e th as loc ev

theorem opPhase_keeps_ground (hash : Bytes → Nat) (e : AttemptEnv) (attempt : Nat)
    (th as : Str) (loc : Option ElementLocation) (ev : AttemptEvents) :
    (opPhase hash e attempt th as loc ev).2.zoomCalls = ev.zoomCalls
    ∧ (opPhase hash e attempt th as loc ev).2.locationFinal = ev.locationFinal
    ∧ (opPhase hash e attempt th as loc ev).2.parsedFinal = ev.parsedFinal
    ∧ (opPhase hash e attempt th as loc ev).2.groundCalled = ev.groundCalled
    ∧ (opPhase hash e attempt th as loc ev).2.sceneCalled = ev.sceneCalled
    ∧ (opPhase hash e attempt th as loc ev).2.geminiCalled = ev.geminiCalled := by
  unfold opPhase
  cases e.opResult with
  | ok => exact hashPhase_keeps_ground hash e attempt th as loc ev
  | finished => exact ⟨rfl, rfl, rfl, rfl, rfl, rfl⟩
  | calluser => exact ⟨rfl, rfl, rfl, rfl, rfl, rfl⟩
  | fail => exact ⟨rfl, rfl, rfl, rfl, rfl, rfl⟩

theorem zoomHit_medium (loc : Option ElementLocation) (h : zoomHit loc = true) :
    ∃ l, loc = some l ∧ l.confidence = lit "medium" ∧ l.box_2d ≠ [] := by
  cases loc with
  | none => exact Bool.noConfusion h
  | some l =>
    refine ⟨l, rfl, ?_, ?_⟩
    · have := (Bool.and_eq_true _ _).mp h
      exact of_decide_eq_true this.1
    · have := (Bool.and_eq_true _ _).mp h
      intro hb
      rw [hb] at this
      exact Bool.noConfusion this.2

theorem groundLocation_some (e : AttemptEnv) (p : Dict) (l : ElementLocation)
    (h : groundLocation e p = some l) : e.ground = some l := by
  unfold groundLocation at h
  split at h
  · exact h
  · exact Option.noConfusion h

theorem applyOverride_medium (p : Dict) (l : ElementLocation)
    (h : l.confidence = lit "medium") :
    applyOverride p (some l) = overrideCoords p l.center_x l.center_y := by
  unfold applyOverride
  simp [h]

set_option maxHeartbeats 800000 in
/-- C8 (amended): zoom re-grounding is invoked at most once per attempt, and
exactly once when grounding returned confidence `medium` WITH a non-empty
`box_2d` (a medium result with an empty box skips refinement); it is never
invoked for `high` or `low`.  When the zoom call fails (returns null) the
original medium-confidence location is retained and used for the coordinate
override. -/
theorem zoom_per_attempt (hash : Bytes → Nat) (norm : Str) (pre : Option Str)
    (attempt : Nat) (th as : Str) (e : AttemptEnv) :
    (attemptBody hash norm pre attempt th as e).2.zoomCalls ≤ 1
    ∧ ((attemptBody hash norm pre attempt th as e).2.zoomCalls = 1 →
        ∃ l, e.ground = some l ∧ l.confidence = lit "medium" ∧ l.box_2d ≠ [])
    ∧ ((attemptBody hash norm pre attempt th as e).2.groundCalled = true →
        ∀ l, e.ground = some l → l.confidence = lit "medium" → l.box_2d ≠ [] →
        (attemptBody hash norm pre attempt th as e).2.zoomCalls = 1
        ∧ (e.zoom = none →
            (attemptBody hash norm pre attempt th as e).2.locationFinal = some l
            ∧ ∃ p0, parse_action e.geminiText = some p0 ∧
              (attemptBody hash norm pre attempt th as e).2.parsedFinal =
                some (overrideCoords p0 l.center_x l.center_y))) := by
  unfold attemptBody
  split
  · refine ⟨Nat.zero_le 1, ?_, ?_⟩
    · intro hz
      have hz' : (0 : Nat) = 1 := hz
      exact absurd hz' (by omega)
    · intro hg
      have hg' : false = true := hg
      exact Bool.noConfusion hg'
  · split
    · refine ⟨Nat.zero_le 1, ?_, ?_⟩
      · intro hz
        have hz' : (0 : Nat) = 1 := hz
        exact absurd hz' (by omega)
      · intro hg
        have hg' : false = true := hg
        exact Bool.noConfusion hg'
    · rename_i parsed0 hparse
      have k := opPhase_keeps_ground hash e attempt
        (extract_thought e.geminiText)
        (mkActionStr (parsedName parsed0)
          (applyOverride parsed0 (refineLocation e (groundLocation e parsed0))))
        (refineLocation e (groundLocation e parsed0))
        { sceneCalled := sceneGate norm pre attempt
          groundCalled := decide (parsedName parsed0 ∈ GROUNDING_ACTIONS)
          zoomCalls := if zoomHit (groundLocation e parsed0) then 1 else 0
          locationFinal := refineLocation e (groundLocation e parsed0)
          parsedFinal := some (applyOverride parsed0
            (refineLocation e (groundLocation e parsed0)))
          kind := .geminiError }
      refine ⟨?_, ?_, ?_⟩
      · rw [k.1]
        by_cases hz : zoomHit (groundLocation e parsed0) = true
        · simp [hz]
        · simp [hz]
      · intro hz
        rw [k.1] at hz
        by_cases hzz : zoomHit (groundLocation e parsed0) = true
        · obtain ⟨l, hl, hm, hb⟩ := zoomHit_medium _ hzz
          exact ⟨l, groundLocation_some e parsed0 l hl, hm, hb⟩
        · rw [if_neg hzz] at hz; exact absurd hz (by simp)
      · intro hg l hground hmed hbox
        rw [k.2.2.2.1] at hg
        have hgl : groundLocation e parsed0 = some l := by
          unfold groundLocation
          rw [if_pos hg]
          exact hground
        have hzh : zoomHit (groundLocation e parsed0) = true := by
          rw [hgl]
          unfold zoomHit
          rw [Bool.and_eq_true, decide_eq_true_eq]
          exact ⟨hmed, by simpa using hbox⟩
        constructor
        · rw [k.1, if_pos hzh]
        · intro hzoom
          have hrl : refineLocation e (groundLocation e parsed0) = some l := by
            unfold refineLocation
            rw [if_pos hzh, hzoom, hgl]
          constructor
          · rw [k.2.1, hrl]
          · refine ⟨parsed0, hparse, ?_⟩
            rw [k.2.2.1, hrl]
            exact congrArg some (applyOverride_medium parsed0 l hmed)

/-- Environment whose screenshots never change (hash-equal on every attempt). -/
def noChangeEnv : Nat → AttemptEnv := fun _ =>
  { geminiText := lit "Action: Click(1, 2)", opResult := .ok,
    screenshot := [1], afterScreenshot := [1], retryScreenshot := [1] }

/-- C5 (counterexample): a run whose screenshots never change reaches the
final attempt (index MAX_RETRIES); there the hashes are equal, yet zero
wait-and-recheck cycles occur before the attempt is declared a no-change
failure — refuting "at least one extra wait-and-recheck cycle always occurs
before the attempt is declared failed" (earlier attempts also show exactly
one cycle each, never up to MAX_RETRIES of them). -/
theorem final_attempt_no_recheck :
    ((run_ambiguous_step (fun b => b.length) true (lit "k")
        { action := some (lit "click_at") } none noChangeEnv).trace.map
      (fun ev => (ev.hashEqualFirst, ev.recheckCount, ev.kind))) =
      [(true, 1, .noChange), (true, 1, .noChange), (true, 1, .noChange),
       (true, 0, .noChange)]
    ∧ (run_ambiguous_step (fun b => b.length) true (lit "k")
        { action := some (lit "click_at") } none noChangeEnv).ret.result = .calluser := by
  exact ⟨rfl, rfl⟩

def recheckEnv : AttemptEnv :=
  { geminiText := lit "Action: Click(1, 2)", opResult := .ok,
    screenshot := [1], afterScreenshot := [1], retryScreenshot := [1, 2],
    verify := .ok (lit "VERDICT: success") }

theorem hash_recheck_per_attempt_witness :
    (attemptBody (fun b => b.length) (lit "clickat") none 0 [] [] recheckEnv).2.recheckCount = 1
    ∧ (attemptBody (fun b => b.length) (lit "clickat") none 0 [] [] recheckEnv).2.recheckWaitMs =
        some 1500 :=
  (hash_recheck_per_attempt (fun b => b.length) (lit "clickat") none 0 [] [] recheckEnv).2.2.1
    rfl (by decide)

def mediumNoBoxEnv : AttemptEnv :=
  { geminiText := lit "Action: Click(1, 2)",
    ground := some ⟨50, 60, [], [], lit "medium"⟩,
    zoom := some ⟨70, 80, [1, 2, 3, 4], [], lit "high"⟩,
    opResult := .finished }

/-- C8 (counterexample): grounding returns confidence `medium` with an empty
`box_2d`; zoom re-grounding is NOT invoked (zero calls), refuting "invoked
exactly once ... when element grounding returned confidence medium". -/
theorem medium_without_box_skips_zoom :
    (attemptBody (fun b => b.length) (lit "clickat") none 0 [] [] mediumNoBoxEnv).2.zoomCalls = 0
    ∧ mediumNoBoxEnv.ground = some ⟨50, 60, [], [], lit "medium"⟩
    ∧ (⟨50, 60, [], [], lit "medium"⟩ : ElementLocation).confidence = lit "medium" := by
  exact ⟨rfl, rfl, rfl⟩

def mediumBoxEnv : AttemptEnv :=
  { geminiText := lit "Action: Click(1, 2)",
    ground := some ⟨50, 60, [10, 10, 20, 20], [], lit "medium"⟩,
    zoom := none,
    opResult := .finished }

theorem zoom_per_attempt_witness :
    (attemptBody (fun b => b.length) (lit "clickat") none 0 [] [] mediumBoxEnv).2.zoomCalls = 1
    ∧ (attemptBody (fun b => b.length) (lit "clickat") none 0 [] [] mediumBoxEnv).2.locationFinal =
        some ⟨50, 60, [10, 10, 20, 20], [], lit "medium"⟩ := by
  have h := (zoom_per_attempt (fun b => b.length) (lit "clickat") none 0 [] [] mediumBoxEnv).2.2
    rfl ⟨50, 60, [10, 10, 20, 20], [], lit "medium"⟩ rfl rfl (by decide)
  exact ⟨h.1, (h.2 rfl).1⟩

theorem attemptBody_gemini (hash : Bytes → Nat) (norm : Str) (pre : Option Str)
    (attempt : Nat) (th as : Str) (e : AttemptEnv) :
    (attemptBody hash norm pre attempt th as e).2.geminiCalled = true := by
  unfold attemptBody
  split
  · rfl
  · split
    · rfl
    · rw [(opPhase_keeps_ground hash e attempt _ _ _ _).2.2.2.2.2]

theorem runLoop_bound (hash : Bytes → Nat) (norm : Str) (pre : Option Str)
    (env : Nat → AttemptEnv) :
    ∀ (fuel attempt : Nat) (le th as : Str),
      (runLoop hash norm pre env fuel attempt le th as).trace.length ≤ fuel
      ∧ (∀ ev ∈ (runLoop hash norm pre env fuel attempt le th as).trace,
          ev.geminiCalled = true)
      ∧ ((runLoop hash norm pre env fuel attempt le th as).exhausted = true →
          (runLoop hash norm pre env fuel attempt le th as).trace.length = fuel
          ∧ (runLoop hash norm pre env fuel attempt le th as).ret.result = .calluser
          ∧ (runLoop hash norm pre env fuel attempt le th as).ret.error =
              some (stuckMsg (runLoop hash norm pre env fuel attempt le th as).finalError)) := by
  intro fuel
  induction fuel with
  | zero =>
    intro attempt le th as
    exact ⟨Nat.le_refl 0, by simp [runLoop], fun _ => ⟨rfl, rfl, rfl⟩⟩
  | succ n ih =>
    intro attempt le th as
    unfold runLoop
    cases hb : attemptBody hash norm pre attempt th as (env attempt) with
    | mk out ev =>
      cases out with
      | done r =>
        refine ⟨by simp, ?_, ?_⟩
        · intro ev' hev'
          simp only [List.mem_singleton] at hev'
          subst hev'
          have := attemptBody_gemini hash norm pre attempt th as (env attempt)
          rw [hb] at this
          exact this
        · intro hex
          exact absurd hex (by simp)
      | retry le' th' as' =>
        have k := ih (attempt + 1) le' th' as'
        refine ⟨?_, ?_, ?_⟩
        · simpa using Nat.succ_le_succ k.1
        · intro ev' hev'
          simp only [List.mem_cons] at hev'
          cases hev' with
          | inl hh =>
            subst hh
            have := attemptBody_gemini hash norm pre attempt th as (env attempt)
            rw [hb] at this
            exact this
          | inr hh => exact k.2.1 ev' hh
        · intro hex
          have hex' : (runLoop hash norm pre env n (attempt + 1) le' th' as').exhausted = true := hex
          refine ⟨?_, (k.2.2 hex').2.1, (k.2.2 hex').2.2⟩
          simp [(k.2.2 hex').1]

/-- C1: per ambiguous step the loop makes at most MAX_RETRIES + 1 = 4
action-selection model calls (one per executed attempt), and when all 4
attempts are exhausted without a success or terminal signal the function
returns the calluser outcome whose explanation is the Stuck-after message
built from the last recorded error.  The embedding is a total function, so
no execution path raises: every outcome is one of the four result values. -/
theorem retry_bound_and_escalation (hash : Bytes → Nat) (hasGenai : Bool)
    (key : Str) (step : Step) (pre : Option Str) (env : Nat → AttemptEnv) :
    (run_ambiguous_step hash hasGenai key step pre env).trace.countP
        (fun ev => ev.geminiCalled) ≤ MAX_RETRIES + 1
    ∧ ((run_ambiguous_step hash hasGenai key step pre env).exhausted = true →
        (run_ambiguous_step hash hasGenai key step pre env).trace.length = MAX_RETRIES + 1
        ∧ (run_ambiguous_step hash hasGenai key step pre env).ret.result = .calluser
        ∧ (run_ambiguous_step hash hasGenai key step pre env).ret.error =
            some (stuckMsg (run_ambiguous_step hash hasGenai key step pre env).finalError)) := by
  unfold run_ambiguous_step
  split
  · exact ⟨by simp, fun hex => absurd hex (by simp)⟩
  · split
    · exact ⟨by simp, fun hex => absurd hex (by simp)⟩
    · have k := runLoop_bound hash (normAction step.action) pre env (MAX_RETRIES + 1) 0 [] [] []
      refine ⟨?_, k.2.2⟩
      calc (runLoop hash (normAction step.action) pre env (MAX_RETRIES + 1) 0 [] [] []).trace.countP
            (fun ev => ev.geminiCalled)
          ≤ (runLoop hash (normAction step.action) pre env (MAX_RETRIES + 1) 0 [] [] []).trace.length :=
            List.countP_le_length _
        _ ≤ MAX_RETRIES + 1 := k.1

/-- Environment whose action-selection call fails on every attempt. -/
def geminiFailEnv : Nat → AttemptEnv := fun _ => { geminiErr := some (lit "boom") }

/-- C1 witness: four failing model calls exhaust the loop; the result is
calluser with the Stuck-after message naming the last error. -/
theorem retry_bound_and_escalation_witness :
    (run_ambiguous_step (fun b => b.length) true (lit "k")
      { action := some (lit "click_at") } none geminiFailEnv).exhausted = true
    ∧ (run_ambiguous_step (fun b => b.length) true (lit "k")
        { action := some (lit "click_at") } none geminiFailEnv).ret.result = .calluser
    ∧ (run_ambiguous_step (fun b => b.length) true (lit "k")
        { action := some (lit "click_at") } none geminiFailEnv).ret.error =
      some (lit "Stuck after 4 attempts — boom") := by
  refine ⟨rfl, ((retry_bound_and_escalation (fun b => b.length) true (lit "k")
    { action := some (lit "click_at") } none geminiFailEnv).2 rfl).2.1, rfl⟩



theorem digit_not_ws (c : Char) (h : isDigitPy c = true) : isWSpy c = false := by
  unfold isWSpy
  have h1 : ¬(c = ' ') := fun hc => by rw [hc] at h; exact absurd h (by decide)
  have h2 : ¬(c = '\t') := fun hc => by rw [hc] at h; exact absurd h (by decide)
  have h3 : ¬(c = '\n') := fun hc => by rw [hc] at h; exact absurd h (by decide)
  have h4 : ¬(c = '\r') := fun hc => by rw [hc] at h; exact absurd h (by decide)
  have h5 : ¬(c = '\x0b') := fun hc => by rw [hc] at h; exact absurd h (by decide)
  have h6 : ¬(c = '\x0c') := fun hc => by rw [hc] at h; exact absurd h (by decide)
  simp [h1, h2, h3, h4, h5, h6]

theorem digit_not_break (c : Char) (h : isDigitPy c = true) : isLineBreak c = false := by
  unfold isLineBreak
  have h1 : ¬(c = '\n') := fun hc => by rw [hc] at h; exact absurd h (by decide)
  have h2 : ¬(c = '\r') := fun hc => by rw [hc] at h; exact absurd h (by decide)
  have h3 : ¬(c = '\x0b') := fun hc => by rw [hc] at h; exact absurd h (by decide)
  have h4 : ¬(c = '\x0c') := fun hc => by rw [hc] at h; exact absurd h (by decide)
  have h5 : ¬(c = '\x1c') := fun hc => by rw [hc] at h; exact absurd h (by decide)
  have h6 : ¬(c = '\x1d') := fun hc => by rw [hc] at h; exact absurd h (by decide)
  have h7 : ¬(c = '\x1e') := fun hc => by rw [hc] at h; exact absurd h (by decide)
  have h8 : ¬(c = '\x85') := fun hc => by rw [hc] at h; exact absurd h (by decide)
  have h9 : ¬(c = ' ') := fun hc => by rw [hc] at h; exact absurd h (by decide)
  have ha : ¬(c = ' ') := fun hc => by rw [hc] at h; exact absurd h (by decide)
  simp [h1, h2, h3, h4, h5, h6, h7, h8, h9, ha]

theorem digit_ne (c d : Char) (h : isDigitPy c = true) (hd : isDigitPy d = false) :
    c ≠ d := fun hc => by rw [hc] at h; rw [h] at hd; exact Bool.noConfusion hd

theorem takeWhile_all (p : Char → Bool) (l : Str) (h : ∀ c ∈ l, p c = true) :
    l.takeWhile p = l := by
  have := takeWhile_all_append p l [] h
  simpa using this

theorem dropWhile_all (p : Char → Bool) (l : Str) (h : ∀ c ∈ l, p c = true) :
    l.dropWhile p = [] := by
  have := dropWhile_all_append p l [] h
  simpa using this

theorem pystrip_id_of_ends (c0 : Char) (mid : Str) (cl : Char)
    (h0 : isWSpy c0 = false) (hl : isWSpy cl = false) :
    pystrip (c0 :: mid ++ [cl]) = c0 :: mid ++ [cl] := by
  have hdw1 : List.dropWhile isWSpy (c0 :: mid ++ [cl]) = c0 :: mid ++ [cl] := by
    simp [List.dropWhile, h0]
  have hrev : (c0 :: mid ++ [cl]).reverse = cl :: (c0 :: mid).reverse := by
    rw [show c0 :: mid ++ [cl] = (c0 :: mid) ++ [cl] from rfl, List.reverse_append]
    rfl
  have hdw2 : List.dropWhile isWSpy (cl :: (c0 :: mid).reverse) = cl :: (c0 :: mid).reverse := by
    simp [List.dropWhile, hl]
  unfold pystrip
  rw [hdw1, hrev, hdw2, ← hrev, List.reverse_reverse]

theorem splitlinesGo_noBreak (s : Str) (h : ∀ c ∈ s, isLineBreak c = false) :
    ∀ acc : Str, splitlinesGo acc s =
      if (acc.reverse ++ s).isEmpty then [] else [acc.reverse ++ s] := by
  induction s with
  | nil =>
    intro acc
    unfold splitlinesGo
    by_cases ha : acc = []
    · subst ha; simp
    · have h1 : acc.isEmpty = false := by simpa using ha
      have h2 : (acc.reverse ++ ([] : Str)).isEmpty = false := by simpa using ha
      rw [h1, h2]
      simp
  | cons c rest ih =>
    intro acc
    have hc : isLineBreak c = false := h c (by simp)
    have hcr : c ≠ '\r' := fun hcc => by
      rw [hcc] at hc; exact absurd hc (by decide)
    unfold splitlinesGo
    split
    case _ heq => simp at heq
    case _ heq => exact absurd (List.cons.inj heq).1 hcr
    case _ =>
      rename_i A B C cc rr hdis heq
      have h1 : c = cc := (List.cons.inj heq).1
      have h2 : rest = rr := (List.cons.inj heq).2
      subst h1
      subst h2
      rw [hc]
      simp only [Bool.false_eq_true, if_false]
      rw [ih (fun d hd => h d (by simp [hd])) (c :: A)]
      have he : (c :: A).reverse ++ rest = A.reverse ++ c :: rest := by simp
      rw [he]

/-- A break-free non-empty text is a single line. -/
theorem splitlines_single (s : Str) (h : ∀ c ∈ s, isLineBreak c = false)
    (hne : s ≠ []) : splitlines s = [s] := by
  unfold splitlines
  rw [splitlinesGo_noBreak s h []]
  have : (([] : Str).reverse ++ s).isEmpty = false := by
    cases s with
    | nil => exact absurd rfl hne
    | cons a t => rfl
  rw [this]
  simp

theorem scanFrac_not_dot (c : Char) (r : Str) (hc : c ≠ '.') :
    scanFrac (c :: r) = ([], c :: r) := by
  unfold scanFrac
  split
  case _ heq => exact absurd (List.cons.inj heq).1 hc
  case _ => rfl

theorem scanFrac_nil : scanFrac [] = ([], []) := rfl

theorem scanNumber_none_of (c : Char) (r : Str) (hd : isDigitPy c = false)
    (hm : c ≠ '-') : scanNumber (c :: r) = none := by
  unfold scanNumber
  split
  case _ heq => exact absurd (List.cons.inj heq).1 hm
  case _ heq =>
    rename_i cc rr hdis
    have h1 : c = cc := (List.cons.inj heq).1
    subst h1
    rw [hd]
    simp
  case _ heq => exact absurd heq (by simp)

theorem boundary_take_drop (ds rest : Str) (hall : ∀ c ∈ ds, isDigitPy c = true)
    (hb : rest = [] ∨ ∃ c r, rest = c :: r ∧ isDigitPy c = false) :
    (ds ++ rest).takeWhile isDigitPy = ds ∧ (ds ++ rest).dropWhile isDigitPy = rest := by
  constructor
  · rw [takeWhile_all_append isDigitPy ds rest hall]
    rcases hb with hb | ⟨c, r, hb, hc⟩
    · simp [hb]
    · rw [hb, List.takeWhile_cons, hc]
      simp
  · rw [dropWhile_all_append isDigitPy ds rest hall]
    rcases hb with hb | ⟨c, r, hb, hc⟩
    · simp [hb]
    · rw [hb, List.dropWhile_cons, hc]
      simp

theorem scanFrac_boundary (rest : Str)
    (hb : rest = [] ∨ ∃ c r, rest = c :: r ∧ c ≠ '.') :
    scanFrac rest = ([], rest) := by
  rcases hb with hb | ⟨c, r, hb, hc⟩
  · rw [hb]; rfl
  · rw [hb]; exact scanFrac_not_dot c r hc

theorem scanNumber_neg (ds rest : Str) (hne : ds ≠ [])
    (hall : ∀ c ∈ ds, isDigitPy c = true)
    (hb : rest = [] ∨ ∃ c r, rest = c :: r ∧ isDigitPy c = false ∧ c ≠ '.') :
    scanNumber ('-' :: (ds ++ rest)) = some (⟨true, ds, []⟩, rest) := by
  cases ds with
  | nil => exact absurd rfl hne
  | cons d ds' =>
    have hd : isDigitPy d = true := hall d (by simp)
    have htd := boundary_take_drop (d :: ds') rest hall
      (by rcases hb with hb | ⟨c, r, hb, hc, _⟩
          · exact Or.inl hb
          · exact Or.inr ⟨c, r, hb, hc⟩)
    have hsf : scanFrac rest = ([], rest) := scanFrac_boundary rest
      (by rcases hb with hb | ⟨c, r, hb, _, hc⟩
          · exact Or.inl hb
          · exact Or.inr ⟨c, r, hb, hc⟩)
    show scanNumber ('-' :: d :: (ds' ++ rest)) = some (⟨true, d :: ds', []⟩, rest)
    unfold scanNumber
    split
    case _ heq =>
      rename_i cc rr
      have hc : d = cc := (List.cons.inj (List.cons.inj heq).2).1
      have hr : ds' ++ rest = rr := (List.cons.inj (List.cons.inj heq).2).2
      subst hc
      subst hr
      rw [hd]
      simp only [if_true]
      rw [show d :: (ds' ++ rest) = (d :: ds') ++ rest from rfl]
      rw [htd.1, htd.2, hsf]
    case _ heq =>
      rename_i cc rr hdis
      have h1 : cc = '-' := ((List.cons.inj heq).1).symm
      have h2 : rr = d :: (ds' ++ rest) := ((List.cons.inj heq).2).symm
      exact (hdis d (ds' ++ rest) h1 h2).elim
    case _ heq => exact absurd heq (by simp)

theorem scanNumber_pos (ds rest : Str) (hne : ds ≠ [])
    (hall : ∀ c ∈ ds, isDigitPy c = true)
    (hb : rest = [] ∨ ∃ c r, rest = c :: r ∧ isDigitPy c = false ∧ c ≠ '.') :
    scanNumber (ds ++ rest) = some (⟨false, ds, []⟩, rest) := by
  cases ds with
  | nil => exact absurd rfl hne
  | cons d ds' =>
    have hd : isDigitPy d = true := hall d (by simp)
    have hdm : d ≠ '-' := digit_ne d '-' hd (by decide)
    have htd := boundary_take_drop (d :: ds') rest hall
      (by rcases hb with hb | ⟨c, r, hb, hc, _⟩
          · exact Or.inl hb
          · exact Or.inr ⟨c, r, hb, hc⟩)
    have hsf : scanFrac rest = ([], rest) := scanFrac_boundary rest
      (by rcases hb with hb | ⟨c, r, hb, _, hc⟩
          · exact Or.inl hb
          · exact Or.inr ⟨c, r, hb, hc⟩)
    show scanNumber (d :: (ds' ++ rest)) = some (⟨false, d :: ds', []⟩, rest)
    unfold scanNumber
    split
    case _ heq => exact absurd (List.cons.inj heq).1 hdm
    case _ heq =>
      rename_i cc rr hdis
      have h1 : d = cc := (List.cons.inj heq).1
      have h2 : ds' ++ rest = rr := (List.cons.inj heq).2
      subst h1
      subst h2
      rw [hd]
      simp only [if_true]
      rw [show d :: (ds' ++ rest) = (d :: ds') ++ rest from rfl]
      rw [htd.1, htd.2, hsf]
    case _ heq => exact absurd heq (by simp)

theorem findNumbers_cons (s r : Str) (t : NumTok)
    (h : scanNumber s = some (t, r)) : findNumbers s = t :: findNumbers r := by
  cases s with
  | nil => exact absurd h (by simp [scanNumber])
  | cons c rest =>
    have hlt := scanNumber_len_lt (c :: rest) t r h
    show findNumbersGo ((c :: rest).length) (c :: rest) = t :: findNumbersGo r.length r
    rw [show findNumbersGo ((c :: rest).length) (c :: rest) =
        (match scanNumber (c :: rest) with
         | some (t, r) => t :: findNumbersGo rest.length r
         | none => findNumbersGo rest.length rest) from rfl]
    rw [h]
    exact congrArg (t :: ·)
      (findNumbersGo_fuel rest.length r.length r
        (by simpa using Nat.le_of_succ_le_succ hlt) (Nat.le_refl _))

theorem findNumbers_skip (c : Char) (rest : Str)
    (h : scanNumber (c :: rest) = none) : findNumbers (c :: rest) = findNumbers rest := by
  show findNumbersGo ((c :: rest).length) (c :: rest) = findNumbersGo rest.length rest
  rw [show findNumbersGo ((c :: rest).length) (c :: rest) =
      (match scanNumber (c :: rest) with
       | some (t, r) => t :: findNumbersGo rest.length r
       | none => findNumbersGo rest.length rest) from rfl]
  rw [h]

theorem all_mem_of_all (l : Str) (p : Char → Bool) (h : l.all p = true) :
    ∀ c ∈ l, p c = true := by
  intro c hc
  exact List.all_eq_true.mp h c hc

theorem findNumbers_pair (ds es : Str) (hds : ds ≠ []) (hda : ds.all isDigitPy = true)
    (hes : es ≠ []) (hea : es.all isDigitPy = true) :
    findNumbers ('-' :: (ds ++ ',' :: ' ' :: es)) =
      [⟨true, ds, []⟩, ⟨false, es, []⟩] := by
  have hall := all_mem_of_all ds isDigitPy hda
  have hallE := all_mem_of_all es isDigitPy hea
  have h1 := scanNumber_neg ds (',' :: ' ' :: es) hds hall
    (Or.inr ⟨',', ' ' :: es, rfl, by decide, by decide⟩)
  rw [findNumbers_cons _ _ _ h1]
  rw [findNumbers_skip ',' (' ' :: es) (scanNumber_none_of ',' (' ' :: es) (by decide) (by decide))]
  rw [findNumbers_skip ' ' es (scanNumber_none_of ' ' es (by decide) (by decide))]
  have h2 : scanNumber (es ++ []) = some (⟨false, es, []⟩, []) :=
    scanNumber_pos es [] hes hallE (Or.inl rfl)
  rw [List.append_nil] at h2
  rw [findNumbers_cons _ _ _ h2]
  rfl

theorem roundTok_int_neg (ds : Str) :
    roundTok ⟨true, ds, []⟩ = -(digitsToNat ds : Int) := rfl

theorem roundTok_int_pos (ds : Str) :
    roundTok ⟨false, ds, []⟩ = (digitsToNat ds : Int) := rfl

theorem parse_coords_no_clamp (ds es : Str) (hds : ds ≠ [])
    (hda : ds.all isDigitPy = true) (hes : es ≠ []) (hea : es.all isDigitPy = true) :
    parse_coords ('-' :: (ds ++ ',' :: ' ' :: es)) 2 =
      some [-(digitsToNat ds : Int), (digitsToNat es : Int)] := by
  unfold parse_coords
  rw [findNumbers_pair ds es hds hda hes hea]
  rfl

theorem findClose_no_rparen (l : Str) (h : ∀ c ∈ l, c ≠ ')') :
    ∀ acc, findClose true acc (l ++ [')']) = some (acc.reverse ++ l) := by
  induction l with
  | nil =>
    intro acc
    show findClose true acc [')'] = some (acc.reverse ++ [])
    unfold findClose
    simp [suffixOk]
  | cons c l' ih =>
    intro acc
    have hc : c ≠ ')' := h c (by simp)
    show findClose true acc (c :: (l' ++ [')'])) = some (acc.reverse ++ c :: l')
    unfold findClose
    split
    case _ heq => simp at heq
    case _ heq =>
      exact absurd (List.cons.inj heq).1 hc
    case _ heq =>
      rename_i cc rr hdis
      have h1 : c = cc := (List.cons.inj heq).1
      have h2 : l' ++ [')'] = rr := (List.cons.inj heq).2
      subst h1
      subst h2
      simp only [ih (fun d hd => h d (by simp [hd]))]
      simp

theorem searchAction_head (strict : Bool) (s : Str) (v : Str × Str)
    (h : matchActionHere strict s = some v) : searchAction strict s = some v := by
  cases s with
  | nil =>
    exact absurd h (by simp [matchActionHere, ciDrop, lit])
  | cons c rest =>
    unfold searchAction
    rw [h]
    rfl

theorem concat_of_ne_nil (l : Str) (h : l ≠ []) : ∃ a l', l = l' ++ [a] := by
  cases hrev : l.reverse with
  | nil =>
    have : l = [] := by
      have := congrArg List.reverse hrev
      simpa using this
    exact absurd this h
  | cons a t =>
    refine ⟨a, t.reverse, ?_⟩
    have := congrArg List.reverse hrev
    simpa using this

/-- C2 (amended): no clamping is applied post-parse.  For any pair of non-empty
digit strings ds, es, the text `Action: Click(-ds, es)` parses to a click whose
x coordinate is the NEGATIVE integer -ds and whose y coordinate is es, however
large: coordinates pass through `int(round(float(.)))` unchanged, with no
projection onto [0, 1000]. -/
theorem parse_action_no_clamp (ds es : Str) (hds : ds ≠ [])
    (hda : ds.all isDigitPy = true) (hes : es ≠ []) (hea : es.all isDigitPy = true) :
    parse_action (lit "Action: Click(-" ++ ds ++ lit ", " ++ es ++ lit ")") =
      some [("action", Val.s (lit "click")),
            ("x", Val.i (-(digitsToNat ds : Int))),
            ("y", Val.i (digitsToNat es : Int))] := by
  have hdsm := all_mem_of_all ds isDigitPy hda
  have hesm := all_mem_of_all es isDigitPy hea
  have e2 : (lit ", " : Str) = ',' :: ' ' :: [] := rfl
  have e3 : (lit ")" : Str) = [')'] := rfl
  -- the text is one break-free line
  have hnb : ∀ c ∈ lit "Action: Click(-" ++ ds ++ lit ", " ++ es ++ lit ")",
      isLineBreak c = false := by
    intro c hc
    simp only [List.mem_append] at hc
    rcases hc with ((((hc | hc) | hc) | hc) | hc)
    · have hall : (lit "Action: Click(-").all (fun c => !(isLineBreak c)) = true := by decide
      have := List.all_eq_true.mp hall c hc
      simpa using this
    · exact digit_not_break c (hdsm c hc)
    · have hall : (lit ", ").all (fun c => !(isLineBreak c)) = true := by decide
      have := List.all_eq_true.mp hall c hc
      simpa using this
    · exact digit_not_break c (hesm c hc)
    · have hall : (lit ")").all (fun c => !(isLineBreak c)) = true := by decide
      have := List.all_eq_true.mp hall c hc
      simpa using this
  have hTne : lit "Action: Click(-" ++ ds ++ lit ", " ++ es ++ lit ")" ≠ [] :=
    fun h => List.noConfusion h
  have hsplit := splitlines_single _ hnb hTne
  -- stripping is the identity: non-space characters at both ends
  have hshape : lit "Action: Click(-" ++ ds ++ lit ", " ++ es ++ lit ")" =
      'A' :: ((lit "ction: Click(-" ++ ds ++ lit ", " ++ es) ++ [')']) := by
    show 'A' :: (lit "ction: Click(-" ++ ds ++ lit ", " ++ es ++ lit ")") =
      'A' :: ((lit "ction: Click(-" ++ ds ++ lit ", " ++ es) ++ [')'])
    rw [e3]
  have hstrip : pystrip (lit "Action: Click(-" ++ ds ++ lit ", " ++ es ++ lit ")") =
      lit "Action: Click(-" ++ ds ++ lit ", " ++ es ++ lit ")" := by
    rw [hshape]
    exact pystrip_id_of_ends 'A' (lit "ction: Click(-" ++ ds ++ lit ", " ++ es) ')'
      (by decide) (by decide)
  have htag : startsActionTag
      (pystrip (lit "Action: Click(-" ++ ds ++ lit ", " ++ es ++ lit ")")) = true := by
    rw [hstrip]
    rfl
  -- the regex match: name Click, lazy group ends at the final parenthesis
  have hassoc : ds ++ lit ", " ++ es ++ lit ")" = (ds ++ ',' :: ' ' :: es) ++ [')'] := by
    rw [e2, e3]
    simp [List.append_assoc]
  have hnotp : ∀ c ∈ ('-' :: (ds ++ ',' :: ' ' :: es)), c ≠ ')' := by
    intro c hc
    simp only [List.mem_cons, List.mem_append] at hc
    rcases hc with rfl | hc | rfl | rfl | hc
    · decide
    · exact digit_ne c ')' (hdsm c hc) (by decide)
    · decide
    · decide
    · exact digit_ne c ')' (hesm c hc) (by decide)
  have hfc : findClose true [] ('-' :: (ds ++ lit ", " ++ es ++ lit ")")) =
      some ('-' :: (ds ++ ',' :: ' ' :: es)) := by
    rw [show ('-' :: (ds ++ lit ", " ++ es ++ lit ")")) =
        ('-' :: (ds ++ ',' :: ' ' :: es)) ++ [')'] from by
      rw [show ('-' :: (ds ++ ',' :: ' ' :: es)) ++ [')'] =
          '-' :: ((ds ++ ',' :: ' ' :: es) ++ [')']) from rfl]
      rw [← hassoc]]
    have := findClose_no_rparen ('-' :: (ds ++ ',' :: ' ' :: es)) hnotp []
    simpa using this
  have hm : matchActionHere true
      (lit "Action: Click(-" ++ ds ++ lit ", " ++ es ++ lit ")") =
      some (lit "Click", '-' :: (ds ++ ',' :: ' ' :: es)) := by
    rw [show matchActionHere true
        (lit "Action: Click(-" ++ ds ++ lit ", " ++ es ++ lit ")") =
        (findClose true [] ('-' :: (ds ++ lit ", " ++ es ++ lit ")"))).map
          (fun args => (lit "Click", args)) from rfl]
    rw [hfc]
    rfl
  have hsearch := searchAction_head true _ _ hm
  -- the stripped argument string is itself
  obtain ⟨el, er, hconcat⟩ := concat_of_ne_nil es hes
  have hel : isDigitPy el = true := hesm el (by rw [hconcat]; simp)
  have hargs : pystrip ('-' :: (ds ++ ',' :: ' ' :: es)) =
      '-' :: (ds ++ ',' :: ' ' :: es) := by
    rw [hconcat]
    rw [show ('-' :: (ds ++ ',' :: ' ' :: (er ++ [el]))) =
        '-' :: ((ds ++ ',' :: ' ' :: er) ++ [el]) from by simp [List.append_assoc]]
    exact pystrip_id_of_ends '-' (ds ++ ',' :: ' ' :: er) el (by decide)
      (digit_not_ws el hel)
  -- assemble
  have hfind : List.find? (fun l => startsActionTag (pystrip l))
      [lit "Action: Click(-" ++ ds ++ lit ", " ++ es ++ lit ")"] =
      some (lit "Action: Click(-" ++ ds ++ lit ", " ++ es ++ lit ")") := by
    simp only [List.find?]
    rw [htag]
  unfold parse_action
  rw [show (lit "Action: Click(-" ++ ds ++ lit ", " ++ es ++ lit ")").isEmpty = false
    from by rw [hshape]; rfl]
  simp only [Bool.false_eq_true, if_false]
  rw [hsplit, hfind]
  show parseActionLine (pystrip (lit "Action: Click(-" ++ ds ++ lit ", " ++ es ++ lit ")")) = _
  rw [hstrip]
  unfold parseActionLine
  rw [show (searchAction true (lit "Action: Click(-" ++ ds ++ lit ", " ++ es ++ lit ")") <|>
      searchAction false (lit "Action: Click(-" ++ ds ++ lit ", " ++ es ++ lit ")")) =
      some (lit "Click", '-' :: (ds ++ ',' :: ' ' :: es)) from by rw [hsearch]; rfl]
  show (match parseBranches (pyLower (pystrip (lit "Click")))
      (pystrip ('-' :: (ds ++ ',' :: ' ' :: es))) with
    | none => none
    | some result => if truthyGet result "action" then some result else none) = _
  rw [hargs]
  rw [show pyLower (pystrip (lit "Click")) = lit "click" from rfl]
  unfold parseBranches
  rw [if_pos (Or.inl rfl)]
  rw [parse_coords_no_clamp ds es hds hda hes hea]
  rfl

/-- C2 counterexample: `Action: Click(-5, 2000)` parses to a click with
x = -5 < 0 and y = 2000 > 1000 — both coordinates escape the claimed
[0, 1000] range immediately post-parse. -/
theorem click_coords_not_clamped :
    parse_action (lit "Action: Click(-5, 2000)") =
      some [("action", Val.s (lit "click")), ("x", Val.i (-5)), ("y", Val.i 2000)] ∧
    ¬((0 : Int) ≤ -5 ∧ (-5 : Int) ≤ 1000) ∧ ¬((0 : Int) ≤ 2000 ∧ (2000 : Int) ≤ 1000) :=
  ⟨rfl, by decide, by decide⟩

theorem parse_action_no_clamp_witness :
    (['5'] : Str) ≠ [] ∧ (['5'] : Str).all isDigitPy = true ∧
    (['2', '0', '0', '0'] : Str) ≠ [] ∧ (['2', '0', '0', '0'] : Str).all isDigitPy = true ∧
    parse_action (lit "Action: Click(-" ++ ['5'] ++ lit ", " ++ ['2', '0', '0', '0'] ++ lit ")") =
      some [("action", Val.s (lit "click")),
            ("x", Val.i (-(digitsToNat ['5'] : Int))),
            ("y", Val.i (digitsToNat ['2', '0', '0', '0'] : Int))] :=
  ⟨by decide, by decide, by decide, by decide,
   parse_action_no_clamp ['5'] ['2', '0', '0', '0'] (by decide) (by decide) (by decide) (by decide)⟩

/-- C4 counterexample: the line picker keys on the `Action:` TAG, not on a
parseable `Name(args)` call.  In `Action: nothing here\nAction: Click(1, 2)`
the first tagged line shadows the parseable second one and the whole parse
returns none, although a parseable action line exists in the text. -/
theorem first_tag_line_shadows :
    parse_action (lit "Action: nothing here\nAction: Click(1, 2)") = none ∧
    parse_action (lit "Action: Click(1, 2)") =
      some [("action", Val.s (lit "click")), ("x", Val.i 1), ("y", Val.i 2)] :=
  ⟨rfl, rfl⟩

/-- C4 (amended): on non-empty text, `parse_action` parses exactly the FIRST
line (top-to-bottom) whose stripped form starts with `Action:`/`action:`
(whether or not that line contains a parseable call), and the result is
whatever `parseActionLine` makes of that single stripped line — none when it
has no `Name(args)` call, even if a later line would parse. -/
theorem parse_action_first_tagged_line (text : Str) (i : Nat) (x : Str)
    (hne : text.isEmpty = false)
    (hx : (splitlines text)[i]? = some x)
    (htag : startsActionTag (pystrip x) = true)
    (hfirst : ∀ j y, j < i → (splitlines text)[j]? = some y →
      startsActionTag (pystrip y) = false) :
    parse_action text = parseActionLine (pystrip x) := by
  unfold parse_action
  simp only [hne, Bool.false_eq_true, if_false]
  rw [find?_of_least (fun l => startsActionTag (pystrip l)) (splitlines text) i x hx htag hfirst]

theorem parse_action_first_tagged_line_witness :
    (lit "x\nAction: Wait(2)").isEmpty = false ∧
    (splitlines (lit "x\nAction: Wait(2)"))[1]? = some (lit "Action: Wait(2)") ∧
    startsActionTag (pystrip (lit "Action: Wait(2)")) = true ∧
    parse_action (lit "x\nAction: Wait(2)") = parseActionLine (pystrip (lit "Action: Wait(2)")) :=
  ⟨rfl, rfl, rfl,
   parse_action_first_tagged_line (lit "x\nAction: Wait(2)") 1 (lit "Action: Wait(2)")
     rfl rfl rfl
     (fun j y hj hy => by
       have hj0 : j = 0 := by omega
       subst hj0
       rw [show (splitlines (lit "x\nAction: Wait(2)"))[0]? = some (lit "x") from rfl] at hy
       have hyx : lit "x" = y := Option.some.inj hy
       rw [← hyx]
       rfl)⟩

end Echo
